import Mathlib

/-!
# Verification of the EncypherAI unicode-metadata core

This file is a shallow embedding, in Lean 4, of the metadata codec and
signature envelope implemented in `encypher/core/unicode_metadata.py`,
together with proofs settling a fixed list of claims about that code.

Modelling conventions:

* Python strings are modelled as `List Nat` of Unicode code points; byte
  strings are `List Nat` with every element `< 256`.  The helper `S`
  converts a Lean string literal to this representation.
* Fallible Python code is modelled with `Option`/`Except`; a raised
  exception is an `Except.error` carrying the exception kind.
* The repository files `encypher/core/crypto_utils.py` and
  `encypher/core/constants.py` are not part of the provided sources; the
  definitions embedding them (`MetadataTarget`, `SerializationFormat`,
  `serialize_payload`, `sign_payload`, `verify_signature`) are modelled
  from the specification and are marked `Modelled from the spec:` in
  their doc comments.  Likewise the Python standard-library functions
  used by the core (`json`, `base64`, `datetime`, `cbor2`) are given
  concrete executable models faithful to the behaviour the source
  relies on.
-/

/-- Code points of a Lean string literal, as a `List Nat`. -/
def S (s : String) : List Nat := s.data.map Char.toNat

/-- Start of the primary variation-selector block (VS1, U+FE00). -/
def VARIATION_SELECTOR_START : Nat := 0xFE00

/-- End of the primary variation-selector block (VS16, U+FE0F). -/
def VARIATION_SELECTOR_END : Nat := 0xFE0F

/-- Start of the variation-selector supplement (VS17, U+E0100). -/
def VARIATION_SELECTOR_SUPPLEMENT_START : Nat := 0xE0100

/-- End of the variation-selector supplement (VS256, U+E01EF). -/
def VARIATION_SELECTOR_SUPPLEMENT_END : Nat := 0xE01EF

/-- Embedding of `UnicodeMetadata.to_variation_selector`: convert a byte to
the code point of a variation-selector character, or `none` when the byte
is out of range. -/
def to_variation_selector (byte : Nat) : Option Nat :=
  if byte < 16 then
    some (VARIATION_SELECTOR_START + byte)
  else if byte < 256 then
    some (VARIATION_SELECTOR_SUPPLEMENT_START + byte - 16)
  else
    none

/-- Embedding of `UnicodeMetadata.from_variation_selector`: convert a code
point back to a byte value, or `none` when the code point is not a
variation selector. -/
def from_variation_selector (code_point : Nat) : Option Nat :=
  if VARIATION_SELECTOR_START ≤ code_point ∧ code_point ≤ VARIATION_SELECTOR_END then
    some (code_point - VARIATION_SELECTOR_START)
  else if VARIATION_SELECTOR_SUPPLEMENT_START ≤ code_point ∧
      code_point ≤ VARIATION_SELECTOR_SUPPLEMENT_END then
    some (code_point - VARIATION_SELECTOR_SUPPLEMENT_START + 16)
  else
    none

/-- Total form of `to_variation_selector` on bytes `< 256` (the value it
returns inside `some`). -/
def vsOf (byte : Nat) : Nat :=
  if byte < 16 then VARIATION_SELECTOR_START + byte
  else VARIATION_SELECTOR_SUPPLEMENT_START + byte - 16

/-- A code point lies in one of the two variation-selector ranges. -/
def isVS (code_point : Nat) : Bool :=
  (VARIATION_SELECTOR_START ≤ code_point ∧ code_point ≤ VARIATION_SELECTOR_END) ∨
  (VARIATION_SELECTOR_SUPPLEMENT_START ≤ code_point ∧
    code_point ≤ VARIATION_SELECTOR_SUPPLEMENT_END)

theorem to_variation_selector_lt (byte : Nat) (h : byte < 256) :
    to_variation_selector byte = some (vsOf byte) := by
  unfold to_variation_selector vsOf
  split <;> simp_all

theorem from_variation_selector_vsOf (byte : Nat) (h : byte < 256) :
    from_variation_selector (vsOf byte) = some byte := by
  unfold from_variation_selector vsOf
  unfold VARIATION_SELECTOR_START VARIATION_SELECTOR_END
    VARIATION_SELECTOR_SUPPLEMENT_START VARIATION_SELECTOR_SUPPLEMENT_END
  split <;> split <;> simp_all <;> omega

theorem from_variation_selector_eq_none_iff (cp : Nat) :
    from_variation_selector cp = none ↔ isVS cp = false := by
  unfold from_variation_selector isVS
  split <;> simp_all

theorem isVS_vsOf (byte : Nat) (h : byte < 256) : isVS (vsOf byte) = true := by
  unfold isVS vsOf
  unfold VARIATION_SELECTOR_START VARIATION_SELECTOR_END
    VARIATION_SELECTOR_SUPPLEMENT_START VARIATION_SELECTOR_SUPPLEMENT_END
  split <;> simp <;> omega

/-- Loop body of `UnicodeMetadata.extract_bytes`: walk the code points,
skipping non-variation-selector code points while the accumulator is empty,
collecting a byte per variation selector, and stopping at the first
non-variation-selector code point once collection has begun. -/
def extractBytesGo (acc : List Nat) : List Nat → List Nat
  | [] => acc
  | c :: rest =>
    match from_variation_selector c with
    | none => if acc = [] then extractBytesGo acc rest else acc
    | some b => extractBytesGo (acc ++ [b]) rest

/-- Embedding of `UnicodeMetadata.extract_bytes`. -/
def extract_bytes (text : List Nat) : List Nat :=
  extractBytesGo [] text

/-- Embedding of `UnicodeMetadata._bytes_to_variation_selectors`: convert a
byte string into the list of variation-selector code points, failing (the
source raises `ValueError`) when some byte has no selector. -/
def bytes_to_variation_selectors (data : List Nat) : Option (List Nat) :=
  let selectors := data.map to_variation_selector
  let valid := selectors.filterMap id
  if valid.length = data.length then some valid else none

theorem bytes_to_variation_selectors_of_lt (data : List Nat)
    (h : ∀ b ∈ data, b < 256) :
    bytes_to_variation_selectors data = some (data.map vsOf) := by
  unfold bytes_to_variation_selectors
  have hmap : data.map to_variation_selector = data.map (fun b => some (vsOf b)) := by
    apply List.map_congr_left
    intro b hb
    exact to_variation_selector_lt b (h b hb)
  simp only [bytes_to_variation_selectors, hmap]
  rw [List.filterMap_map]
  rw [show (id ∘ fun b => some (vsOf b)) = some ∘ vsOf from rfl, List.filterMap_eq_map]
  simp

theorem extractBytesGo_skip (acc : List Nat) (c : Nat) (rest : List Nat)
    (hc : from_variation_selector c = none) (hacc : acc = []) :
    extractBytesGo acc (c :: rest) = extractBytesGo acc rest := by
  simp [extractBytesGo, hc, hacc]

theorem extractBytesGo_vs_run (B : List Nat) (acc : List Nat) (rest : List Nat)
    (hB : ∀ b ∈ B, b < 256)
    (hstop : rest = [] ∨ (∃ c tail, rest = c :: tail ∧ from_variation_selector c = none))
    (hne : acc = [] → B ≠ []) :
    extractBytesGo acc (B.map vsOf ++ rest) = acc ++ B := by
  induction B generalizing acc with
  | nil =>
    have hacc : acc ≠ [] := by
      intro h
      exact hne h rfl
    rcases hstop with h | ⟨c, tail, hr, hc⟩
    · simp [h, extractBytesGo]
    · simp [hr, extractBytesGo, hc, hacc]
  | cons b B ih =>
    have hb : b < 256 := hB b (by simp)
    simp only [List.map_cons, List.cons_append, extractBytesGo,
      from_variation_selector_vsOf b hb, List.append_eq]
    rw [ih (acc ++ [b]) (fun x hx => hB x (by simp [hx])) (by simp)]
    simp

/-!
## JSON value model

The payloads the source builds are Python dicts whose values are strings,
dicts, and lists; `crypto_utils.serialize_payload` (not part of the
provided sources) serializes them with `json.dumps(obj,
separators=(",", ":"))` and UTF-8 encoding, and the verifier re-parses
them with `json.loads`.  `JVal` represents such JSON documents; object
and array contents are kept as constructor chains (`jobjCons`/`jarrCons`)
so that all recursion below is plainly structural and kernel-reducible.
Dict insertion order is preserved, matching Python dicts.
-/

inductive JVal where
  | jstr : List Nat → JVal
  | jobjNil : JVal
  | jobjCons : List Nat → JVal → JVal → JVal
  | jarrNil : JVal
  | jarrCons : JVal → JVal → JVal
deriving Repr, DecidableEq

/-- A code point that `json.dumps` emits verbatim inside a string literal
(printable ASCII, neither quote nor backslash).  The model restricts
payload strings to this alphabet; on it, Python compact JSON output is
byte-identical to this model, since `ensure_ascii` escaping never fires. -/
def SafeChar (c : Nat) : Bool :=
  decide (32 ≤ c) && decide (c ≤ 126) && decide (c ≠ 34) && decide (c ≠ 92)

/-- Strings acceptable in the model: safe characters, with a length bound
that keeps the CBOR length-header ladder (below) in its two-byte regime. -/
def SafeStr (s : List Nat) : Bool :=
  s.all SafeChar && decide (s.length < 65536)

/-- Membership of a key in an object chain. -/
def chainHasKey : JVal → List Nat → Bool
  | .jobjCons k _ r, key => decide (k = key) || chainHasKey r key
  | _, _ => false

/-- Value stored under a key in an object chain. -/
def chainGet : JVal → List Nat → Option JVal
  | .jobjCons k v r, key => if k = key then some v else chainGet r key
  | _, _ => none

/-- Removal of a key from an object chain (first occurrence). -/
def chainErase : JVal → List Nat → JVal
  | .jobjCons k v r, key => if k = key then r else .jobjCons k v (chainErase r key)
  | x, _ => x

/-- Number of entries of an object or array chain. -/
def chainLength : JVal → Nat
  | .jobjCons _ _ r => chainLength r + 1
  | .jarrCons _ r => chainLength r + 1
  | _ => 0

/-- The value is an object chain node. -/
def isObjShape : JVal → Bool
  | .jobjNil => true
  | .jobjCons _ _ _ => true
  | _ => false

/-- The value is an array chain node. -/
def isArrShape : JVal → Bool
  | .jarrNil => true
  | .jarrCons _ _ => true
  | _ => false

/-- Well-formed JSON documents of the model: safe strings, well-shaped
chains, no duplicate object keys, chain lengths below the CBOR two-byte
length regime. -/
def ValidJ : JVal → Bool
  | .jstr s => SafeStr s
  | .jobjNil => true
  | .jobjCons k v r => SafeStr k && ValidJ v && ValidJ r && isObjShape r &&
      !chainHasKey r k && decide (chainLength r + 1 < 65536)
  | .jarrNil => true
  | .jarrCons v r => ValidJ v && ValidJ r && isArrShape r &&
      decide (chainLength r + 1 < 65536)

/-- Mode of the JSON dumper: a value, the tail of an object body, or the
tail of an array body. -/
inductive DumpMode | top | objTail | arrTail

/-- Compact JSON serialization (model of `json.dumps(obj,
separators=(",", ":")).encode("utf-8")` on safe-string documents). -/
def dumpJ : DumpMode → JVal → List Nat
  | .top, .jstr s => 34 :: (s ++ [34])
  | .top, .jobjNil => [123, 125]
  | .top, .jobjCons k v r => 123 :: 34 :: (k ++ 34 :: 58 :: (dumpJ .top v ++ dumpJ .objTail r))
  | .top, .jarrNil => [91, 93]
  | .top, .jarrCons v r => 91 :: (dumpJ .top v ++ dumpJ .arrTail r)
  | .objTail, .jobjCons k v r => 44 :: 34 :: (k ++ 34 :: 58 :: (dumpJ .top v ++ dumpJ .objTail r))
  | .objTail, _ => [125]
  | .arrTail, .jarrCons v r => 44 :: (dumpJ .top v ++ dumpJ .arrTail r)
  | .arrTail, _ => [93]

/-- Body of a JSON string literal: scan to the closing quote.  Escape
sequences and raw control characters are rejected; no document this
development parses contains them. -/
def parseStringBody : List Nat → Option (List Nat × List Nat)
  | [] => none
  | c :: rest =>
    if c = 34 then some ([], rest)
    else if c = 92 ∨ c < 32 then none
    else
      match parseStringBody rest with
      | some (s, r) => some (c :: s, r)
      | none => none

/-- Python dict insertion during parsing: a parsed entry `(k, v)` followed
by the already-parsed remaining entries `r`.  When `k` occurs again later,
the later value wins although the key keeps its first position, exactly
as successive `d[k] = v` assignments behave on a Python dict. -/
def insertParsed (k : List Nat) (v : JVal) (r : JVal) : JVal :=
  match chainGet r k with
  | some v2 => .jobjCons k v2 (chainErase r k)
  | none => .jobjCons k v r

/-- Mode of the JSON parser, mirroring `DumpMode`. -/
inductive PMode | val | objTail | arrTail

/-- Recursive-descent JSON parser (model of `json.loads` on the compact
whitespace-free documents this development produces), fuelled so that all
recursion is structural. -/
def parseJ : Nat → PMode → List Nat → Option (JVal × List Nat)
  | 0, _, _ => none
  | fuel+1, .val, input =>
    match input with
    | [] => none
    | c :: rest =>
      if c = 34 then
        match parseStringBody rest with
        | some (s, r) => some (.jstr s, r)
        | none => none
      else if c = 123 then
        match rest with
        | [] => none
        | d :: rest2 =>
          if d = 125 then some (.jobjNil, rest2)
          else if d = 34 then
            match parseStringBody rest2 with
            | none => none
            | some (k, r1) =>
              match r1 with
              | [] => none
              | e :: r2 =>
                if e = 58 then
                  match parseJ fuel .val r2 with
                  | none => none
                  | some (v, r3) =>
                    match parseJ fuel .objTail r3 with
                    | none => none
                    | some (chain, r4) => some (insertParsed k v chain, r4)
                else none
          else none
      else if c = 91 then
        match rest with
        | [] => none
        | d :: _ =>
          if d = 93 then some (.jarrNil, rest.tail)
          else
            match parseJ fuel .val rest with
            | none => none
            | some (v, r1) =>
              match parseJ fuel .arrTail r1 with
              | none => none
              | some (chain, r2) => some (.jarrCons v chain, r2)
      else none
  | fuel+1, .objTail, input =>
    match input with
    | [] => none
    | c :: rest =>
      if c = 125 then some (.jobjNil, rest)
      else if c = 44 then
        match rest with
        | [] => none
        | d :: rest2 =>
          if d = 34 then
            match parseStringBody rest2 with
            | none => none
            | some (k, r1) =>
              match r1 with
              | [] => none
              | e :: r2 =>
                if e = 58 then
                  match parseJ fuel .val r2 with
                  | none => none
                  | some (v, r3) =>
                    match parseJ fuel .objTail r3 with
                    | none => none
                    | some (chain, r4) => some (insertParsed k v chain, r4)
                else none
          else none
      else none
  | fuel+1, .arrTail, input =>
    match input with
    | [] => none
    | c :: rest =>
      if c = 93 then some (.jarrNil, rest)
      else if c = 44 then
        match parseJ fuel .val rest with
        | none => none
        | some (v, r1) =>
          match parseJ fuel .arrTail r1 with
          | none => none
          | some (chain, r2) => some (.jarrCons v chain, r2)
      else none

/-- Whole-document JSON parse: the entire input must be consumed. -/
def jsonLoads (data : List Nat) : Option JVal :=
  match parseJ (data.length + 1) PMode.val data with
  | some (v, []) => some v
  | _ => none

/-- Structural size of a JSON document, used as parser fuel bound. -/
def jsize : JVal → Nat
  | .jstr _ => 1
  | .jobjNil => 1
  | .jobjCons _ v r => 1 + jsize v + jsize r
  | .jarrNil => 1
  | .jarrCons v r => 1 + jsize v + jsize r

theorem jsize_pos (v : JVal) : 1 ≤ jsize v := by
  cases v <;> (simp only [jsize]; omega)

theorem parseStringBody_safe (s rest : List Nat) (h : s.all SafeChar = true) :
    parseStringBody (s ++ 34 :: rest) = some (s, rest) := by
  induction s with
  | nil => simp [parseStringBody]
  | cons c s ih =>
    rw [List.all_cons, Bool.and_eq_true] at h
    have hc := h.1
    simp only [SafeChar, Bool.and_eq_true, decide_eq_true_eq] at hc
    obtain ⟨⟨⟨h32, h126⟩, h34⟩, h92⟩ := hc
    have h1 : ¬ (c = 34) := h34
    have h2 : ¬ (c = 92 ∨ c < 32) := by omega
    simp only [List.cons_append, parseStringBody, if_neg h1, if_neg h2,
      List.append_eq, ih h.2]

theorem chainGet_eq_none (r : JVal) (k : List Nat) (h : chainHasKey r k = false) :
    chainGet r k = none := by
  induction r with
  | jobjCons k2 v2 r2 _ ih2 =>
    simp only [chainHasKey, Bool.or_eq_false_iff, decide_eq_false_iff_not] at h
    simp only [chainGet, if_neg h.1, ih2 h.2]
  | jstr s => simp [chainGet]
  | jobjNil => simp [chainGet]
  | jarrNil => simp [chainGet]
  | jarrCons v r _ _ => simp [chainGet]

theorem insertParsed_no_dup (k : List Nat) (v r : JVal)
    (h : chainHasKey r k = false) :
    insertParsed k v r = JVal.jobjCons k v r := by
  simp [insertParsed, chainGet_eq_none r k h]

theorem dumpJ_top_head (v : JVal) :
    ∃ c cs, dumpJ DumpMode.top v = c :: cs ∧ (c = 34 ∨ c = 123 ∨ c = 91) := by
  cases v <;> simp [dumpJ]

theorem parseJ_dumpJ (fuel : Nat) :
    ∀ (v : JVal) (rest : List Nat), ValidJ v = true → jsize v ≤ fuel →
      (parseJ fuel PMode.val (dumpJ DumpMode.top v ++ rest) = some (v, rest)) ∧
      (isObjShape v = true →
        parseJ fuel PMode.objTail (dumpJ DumpMode.objTail v ++ rest) = some (v, rest)) ∧
      (isArrShape v = true →
        parseJ fuel PMode.arrTail (dumpJ DumpMode.arrTail v ++ rest) = some (v, rest)) := by
  induction fuel with
  | zero =>
    intro v rest _ hs
    have := jsize_pos v
    omega
  | succ fuel ih =>
    intro v rest hv hs
    cases v with
    | jstr s =>
      have hsafe : s.all SafeChar = true := by
        simp only [ValidJ, SafeStr, Bool.and_eq_true] at hv
        exact hv.1
      refine ⟨?_, by intro h; simp [isObjShape] at h, by intro h; simp [isArrShape] at h⟩
      simp only [dumpJ, List.cons_append, List.nil_append, List.append_assoc,
        List.singleton_append]
      simp only [parseJ]
      norm_num
      rw [parseStringBody_safe s rest hsafe]
    | jobjNil =>
      refine ⟨?_, ?_, by intro h; simp [isArrShape] at h⟩
      · simp [dumpJ, parseJ]
      · intro
        simp [dumpJ, parseJ]
    | jobjCons k v r =>
      simp only [ValidJ, Bool.and_eq_true, Bool.not_eq_true',
        decide_eq_true_eq] at hv
      obtain ⟨⟨⟨⟨⟨hk, hvv⟩, hvr⟩, hshape⟩, hnokey⟩, _⟩ := hv
      have hksafe : k.all SafeChar = true := by
        simp only [SafeStr, Bool.and_eq_true] at hk
        exact hk.1
      have hszv : jsize v ≤ fuel := by
        simp only [jsize] at hs
        omega
      have hszr : jsize r ≤ fuel := by
        simp only [jsize] at hs
        omega
      have hmain : ∀ r2 : List Nat,
          (match parseJ fuel PMode.val (dumpJ DumpMode.top v ++ (dumpJ DumpMode.objTail r ++ r2)) with
            | none => none
            | some (v2, r3) =>
              match parseJ fuel PMode.objTail r3 with
              | none => none
              | some (chain, r4) => some (insertParsed k v2 chain, r4)) =
            some (JVal.jobjCons k v r, r2) := by
        intro r2
        rw [(ih v (dumpJ DumpMode.objTail r ++ r2) hvv hszv).1]
        simp only [(ih r r2 hvr hszr).2.1 hshape,
          insertParsed_no_dup k v r hnokey]
      constructor
      · simp only [dumpJ, List.cons_append, List.append_assoc, List.singleton_append]
        simp only [parseJ]
        norm_num
        rw [parseStringBody_safe k _ hksafe]
        simpa using hmain rest
      constructor
      · intro
        simp only [dumpJ, List.cons_append, List.append_assoc, List.singleton_append]
        simp only [parseJ]
        norm_num
        rw [parseStringBody_safe k _ hksafe]
        simpa using hmain rest
      · intro h
        simp [isArrShape] at h
    | jarrNil =>
      refine ⟨?_, ?_, ?_⟩
      · simp [dumpJ, parseJ]
      · intro h
        simp [isObjShape] at h
      · intro
        simp [dumpJ, parseJ]
    | jarrCons v r =>
      simp only [ValidJ, Bool.and_eq_true, decide_eq_true_eq] at hv
      obtain ⟨⟨⟨hvv, hvr⟩, hshape⟩, _⟩ := hv
      have hszv : jsize v ≤ fuel := by
        simp only [jsize] at hs
        omega
      have hszr : jsize r ≤ fuel := by
        simp only [jsize] at hs
        omega
      obtain ⟨c, cs, hdump, hc⟩ := dumpJ_top_head v
      have hmain :
          (match parseJ fuel PMode.val (dumpJ DumpMode.top v ++ (dumpJ DumpMode.arrTail r ++ rest)) with
            | none => none
            | some (v2, r1) =>
              match parseJ fuel PMode.arrTail r1 with
              | none => none
              | some (chain, r2) => some (JVal.jarrCons v2 chain, r2)) =
            some (JVal.jarrCons v r, rest) := by
        rw [(ih v (dumpJ DumpMode.arrTail r ++ rest) hvv hszv).1]
        simp only [(ih r rest hvr hszr).2.2 hshape]
      have hcne : ¬ (c = 93) := by omega
      refine ⟨?_, ?_, ?_⟩
      · simp only [dumpJ, List.cons_append, List.append_assoc]
        simp only [parseJ]
        norm_num
        rw [hdump]
        simp only [List.cons_append, if_neg hcne]
        rw [← List.cons_append, ← hdump]
        exact hmain
      · intro h
        simp [isObjShape] at h
      · intro
        simp only [dumpJ, List.cons_append, List.append_assoc]
        simp only [parseJ]
        norm_num
        exact hmain

theorem jsize_le_dumpJ (v : JVal) (hv : ValidJ v = true) :
    jsize v ≤ (dumpJ DumpMode.top v).length ∧
    (isObjShape v = true → jsize v ≤ (dumpJ DumpMode.objTail v).length) ∧
    (isArrShape v = true → jsize v ≤ (dumpJ DumpMode.arrTail v).length) := by
  induction v with
  | jstr s =>
    refine ⟨by simp [dumpJ, jsize], ?_, ?_⟩ <;> (intro h; simp [isObjShape, isArrShape] at h)
  | jobjNil =>
    exact ⟨by simp [dumpJ, jsize], by intro; simp [dumpJ, jsize],
      by intro h; simp [isArrShape] at h⟩
  | jobjCons k v r ihv ihr =>
    simp only [ValidJ, Bool.and_eq_true] at hv
    obtain ⟨⟨⟨⟨⟨_, hvv⟩, hvr⟩, hshape⟩, _⟩, _⟩ := hv
    have h1 := (ihv hvv).1
    have h2 := (ihr hvr).2.1 hshape
    refine ⟨?_, ?_, by intro h; simp [isArrShape] at h⟩ <;>
      (try intro) <;> (simp [dumpJ, jsize]; omega)
  | jarrNil =>
    exact ⟨by simp [dumpJ, jsize], by intro h; simp [isObjShape] at h,
      by intro; simp [dumpJ, jsize]⟩
  | jarrCons v r ihv ihr =>
    simp only [ValidJ, Bool.and_eq_true] at hv
    obtain ⟨⟨⟨hvv, hvr⟩, hshape⟩, _⟩ := hv
    have h1 := (ihv hvv).1
    have h2 := (ihr hvr).2.2 hshape
    refine ⟨?_, by intro h; simp [isObjShape] at h, ?_⟩ <;>
      (try intro) <;> (simp [dumpJ, jsize]; omega)

theorem jsonLoads_dumpJ (v : JVal) (hv : ValidJ v = true) :
    jsonLoads (dumpJ DumpMode.top v) = some v := by
  unfold jsonLoads
  have hsz : jsize v ≤ (dumpJ DumpMode.top v).length + 1 := by
    have := (jsize_le_dumpJ v hv).1
    omega
  have h1 := (parseJ_dumpJ ((dumpJ DumpMode.top v).length + 1) v [] hv hsz).1
  rw [List.append_nil] at h1
  rw [h1]

/-- A JSON parse at top level fails on any input whose first byte is not
a quote, brace, or bracket; in particular on all CBOR documents produced
below, whose lead byte is at least 128. -/
theorem jsonLoads_high_head (b : Nat) (rest : List Nat) (hb : 128 ≤ b) :
    jsonLoads (b :: rest) = none := by
  have h34 : ¬ (b = 34) := by omega
  have h123 : ¬ (b = 123) := by omega
  have h91 : ¬ (b = 91) := by omega
  simp [jsonLoads, parseJ, if_neg h34, if_neg h123, if_neg h91]

/-!
## CBOR model

Modelled from the spec: the CBOR transport encodes the same mapping as a
single CBOR major-type-5 map (strings are major type 3, arrays major
type 4), with the standard initial-byte/length-header layout; `cbor2`
decoding round-trips it, preserving key order.  The length ladder is
implemented for lengths below 65536, which covers every valid document
of this development.
-/

/-- CBOR initial byte(s): major type and length/count header. -/
def cborHdr (maj : Nat) (n : Nat) : List Nat :=
  if n < 24 then [32 * maj + n]
  else if n < 256 then [32 * maj + 24, n]
  else [32 * maj + 25, n / 256, n % 256]

/-- Serialization of a document to CBOR bytes. -/
def dumpC : DumpMode → JVal → List Nat
  | .top, .jstr s => cborHdr 3 s.length ++ s
  | .top, .jobjNil => [160]
  | .top, .jobjCons k v r =>
      cborHdr 5 (chainLength r + 1) ++
        (cborHdr 3 k.length ++ k ++ (dumpC .top v ++ dumpC .objTail r))
  | .top, .jarrNil => [128]
  | .top, .jarrCons v r =>
      cborHdr 4 (chainLength r + 1) ++ (dumpC .top v ++ dumpC .arrTail r)
  | .objTail, .jobjCons k v r =>
      cborHdr 3 k.length ++ k ++ (dumpC .top v ++ dumpC .objTail r)
  | .objTail, _ => []
  | .arrTail, .jarrCons v r => dumpC .top v ++ dumpC .arrTail r
  | .arrTail, _ => []

/-- Decode a CBOR length header given the initial byte and remaining input. -/
def parseCLen (b : Nat) (rest : List Nat) : Option (Nat × List Nat) :=
  let ai := b % 32
  if ai < 24 then some (ai, rest)
  else if ai = 24 then
    match rest with
    | n :: r2 => some (n, r2)
    | [] => none
  else if ai = 25 then
    match rest with
    | n1 :: n2 :: r2 => some (n1 * 256 + n2, r2)
    | _ => none
  else none

/-- Mode of the CBOR decoder: a value, `k` remaining map entries, or `k`
remaining array items. -/
inductive CMode | val | entries (k : Nat) | items (k : Nat)

/-- Fuelled CBOR decoder (model of `cbor2.loads` on the documents this
development produces). -/
def parseC : Nat → CMode → List Nat → Option (JVal × List Nat)
  | 0, _, _ => none
  | fuel+1, .val, input =>
    match input with
    | [] => none
    | b :: rest =>
      if b / 32 = 3 then
        match parseCLen b rest with
        | none => none
        | some (n, r2) =>
          if n ≤ r2.length then some (.jstr (r2.take n), r2.drop n) else none
      else if b / 32 = 5 then
        match parseCLen b rest with
        | none => none
        | some (n, r2) => parseC fuel (.entries n) r2
      else if b / 32 = 4 then
        match parseCLen b rest with
        | none => none
        | some (n, r2) => parseC fuel (.items n) r2
      else none
  | fuel+1, .entries k, input =>
    match k with
    | 0 => some (.jobjNil, input)
    | k2+1 =>
      match input with
      | [] => none
      | b :: rest =>
        if b / 32 = 3 then
          match parseCLen b rest with
          | none => none
          | some (n, r2) =>
            if n ≤ r2.length then
              match parseC fuel .val (r2.drop n) with
              | none => none
              | some (v, r3) =>
                match parseC fuel (.entries k2) r3 with
                | none => none
                | some (chain, r4) => some (insertParsed (r2.take n) v chain, r4)
            else none
        else none
  | fuel+1, .items k, input =>
    match k with
    | 0 => some (.jarrNil, input)
    | k2+1 =>
      match parseC fuel .val input with
      | none => none
      | some (v, r1) =>
        match parseC fuel (.items k2) r1 with
        | none => none
        | some (chain, r2) => some (.jarrCons v chain, r2)

/-- Whole-document CBOR parse. -/
def cborLoads (data : List Nat) : Option JVal :=
  match parseC (2 * data.length + 2) CMode.val data with
  | some (v, []) => some v
  | _ => none

theorem parseCLen_cborHdr (maj n : Nat) (rest : List Nat) (hm : maj ≤ 5) (hn : n < 65536) :
    ∃ b tail, cborHdr maj n ++ rest = b :: tail ∧ b / 32 = maj ∧
      parseCLen b tail = some (n, rest) := by
  unfold cborHdr
  split
  · refine ⟨32 * maj + n, rest, by simp, by omega, ?_⟩
    have h1 : (32 * maj + n) % 32 = n := by omega
    simp only [parseCLen, h1]
    split
    · rfl
    · omega
  · split
    · refine ⟨32 * maj + 24, n :: rest, by simp, by omega, ?_⟩
      have h1 : (32 * maj + 24) % 32 = 24 := by omega
      simp [parseCLen, h1]
    · refine ⟨32 * maj + 25, n / 256 :: n % 256 :: rest, by simp, by omega, ?_⟩
      have h1 : (32 * maj + 25) % 32 = 25 := by omega
      simp only [parseCLen, h1]
      norm_num
      omega

theorem parseC_dumpC (v : JVal) :
    ∀ (fuel : Nat) (rest : List Nat), ValidJ v = true →
      (jsize v + 1 ≤ fuel →
        parseC fuel CMode.val (dumpC DumpMode.top v ++ rest) = some (v, rest)) ∧
      (jsize v ≤ fuel → isObjShape v = true →
        parseC fuel (CMode.entries (chainLength v)) (dumpC DumpMode.objTail v ++ rest) =
          some (v, rest)) ∧
      (jsize v ≤ fuel → isArrShape v = true →
        parseC fuel (CMode.items (chainLength v)) (dumpC DumpMode.arrTail v ++ rest) =
          some (v, rest)) := by
  induction v with
  | jstr s =>
    intro fuel rest hv
    have hlen : s.length < 65536 := by
      simp only [ValidJ, SafeStr, Bool.and_eq_true, decide_eq_true_eq] at hv
      exact hv.2
    refine ⟨?_, by intro _ h; simp [isObjShape] at h, by intro _ h; simp [isArrShape] at h⟩
    intro hf
    obtain ⟨f, rfl⟩ : ∃ f, fuel = f + 1 := ⟨fuel - 1, by simp [jsize] at hf; omega⟩
    obtain ⟨b, tail, heq, hb, hplen⟩ := parseCLen_cborHdr 3 s.length (s ++ rest)
      (by omega) hlen
    simp only [dumpC, List.append_assoc]
    rw [heq]
    simp only [parseC, hb]
    norm_num
    rw [hplen]
    simp [List.take_left, List.drop_left]
  | jobjNil =>
    intro fuel rest _
    refine ⟨?_, ?_, by intro _ h; simp [isArrShape] at h⟩
    · intro hf
      obtain ⟨f, rfl⟩ : ∃ f, fuel = f + 1 := ⟨fuel - 1, by simp [jsize] at hf; omega⟩
      obtain ⟨g, rfl⟩ : ∃ g, f = g + 1 := ⟨f - 1, by simp [jsize] at hf; omega⟩
      simp [dumpC, parseC, parseCLen]
    · intro hf _
      obtain ⟨f, rfl⟩ : ∃ f, fuel = f + 1 := ⟨fuel - 1, by simp [jsize] at hf; omega⟩
      simp [dumpC, chainLength, parseC]
  | jobjCons k v r ihv ihr =>
    intro fuel rest hv
    have hv2 := hv
    simp only [ValidJ, Bool.and_eq_true, Bool.not_eq_true', decide_eq_true_eq] at hv2
    obtain ⟨⟨⟨⟨⟨hk, hvv⟩, hvr⟩, hshape⟩, hnokey⟩, _⟩ := hv2
    have hklen : k.length < 65536 := by
      simp only [SafeStr, Bool.and_eq_true, decide_eq_true_eq] at hk
      exact hk.2
    have hB : ∀ fuel2 rest2, jsize (JVal.jobjCons k v r) ≤ fuel2 →
        parseC fuel2 (CMode.entries (chainLength (JVal.jobjCons k v r)))
          (dumpC DumpMode.objTail (JVal.jobjCons k v r) ++ rest2) =
          some (JVal.jobjCons k v r, rest2) := by
      intro fuel2 rest2 hf
      have hjv : 1 ≤ jsize v := jsize_pos v
      have hjr : 1 ≤ jsize r := jsize_pos r
      obtain ⟨f, rfl⟩ : ∃ f, fuel2 = f + 1 :=
        ⟨fuel2 - 1, by simp [jsize] at hf; omega⟩
      obtain ⟨b, tail, heq, hb, hplen⟩ := parseCLen_cborHdr 3 k.length
        (k ++ (dumpC DumpMode.top v ++ (dumpC DumpMode.objTail r ++ rest2)))
        (by omega) hklen
      simp only [dumpC, chainLength, List.append_assoc]
      rw [heq]
      simp only [parseC, hb]
      norm_num
      rw [hplen]
      have htake : (k ++ (dumpC DumpMode.top v ++ (dumpC DumpMode.objTail r ++ rest2))).take
          k.length = k := List.take_left k _
      have hdrop : (k ++ (dumpC DumpMode.top v ++ (dumpC DumpMode.objTail r ++ rest2))).drop
          k.length = dumpC DumpMode.top v ++ (dumpC DumpMode.objTail r ++ rest2) :=
        List.drop_left k _
      have hle : k.length ≤
          (k ++ (dumpC DumpMode.top v ++ (dumpC DumpMode.objTail r ++ rest2))).length := by
        simp
      simp only [htake, hdrop]
      rw [if_pos hle]
      rw [(ihv f (dumpC DumpMode.objTail r ++ rest2) hvv).1
        (by simp [jsize] at hf; omega)]
      simp only [(ihr f rest2 hvr).2.1 (by simp [jsize] at hf; omega) hshape]
      simp [insertParsed_no_dup k v r hnokey]
    refine ⟨?_, fun hf _ => hB fuel rest hf, by intro _ h; simp [isArrShape] at h⟩
    intro hf
    have hcl : chainLength r + 1 < 65536 := by
      simp only [ValidJ, Bool.and_eq_true, decide_eq_true_eq] at hv
      omega
    obtain ⟨f, rfl⟩ : ∃ f, fuel = f + 1 := ⟨fuel - 1, by simp [jsize] at hf; omega⟩
    obtain ⟨b, tail, heq, hb, hplen⟩ := parseCLen_cborHdr 5 (chainLength r + 1)
      (dumpC DumpMode.objTail (JVal.jobjCons k v r) ++ rest) (by omega) hcl
    have hbne : ¬ (b / 32 = 3) := by omega
    have hbne2 : b / 32 = 5 := hb
    simp only [dumpC, List.append_assoc]
    rw [show cborHdr 5 (chainLength r + 1) ++
        (cborHdr 3 k.length ++ (k ++ (dumpC DumpMode.top v ++
          (dumpC DumpMode.objTail r ++ rest)))) =
        cborHdr 5 (chainLength r + 1) ++
        (dumpC DumpMode.objTail (JVal.jobjCons k v r) ++ rest) from by
      simp [dumpC, List.append_assoc]]
    rw [heq]
    simp only [parseC, if_neg hbne, hbne2]
    norm_num
    rw [hplen]
    exact hB f rest (by simp [jsize] at hf ⊢; omega)
  | jarrNil =>
    intro fuel rest _
    refine ⟨?_, by intro _ h; simp [isObjShape] at h, ?_⟩
    · intro hf
      obtain ⟨f, rfl⟩ : ∃ f, fuel = f + 1 := ⟨fuel - 1, by simp [jsize] at hf; omega⟩
      obtain ⟨g, rfl⟩ : ∃ g, f = g + 1 := ⟨f - 1, by simp [jsize] at hf; omega⟩
      simp [dumpC, parseC, parseCLen]
    · intro hf _
      obtain ⟨f, rfl⟩ : ∃ f, fuel = f + 1 := ⟨fuel - 1, by simp [jsize] at hf; omega⟩
      simp [dumpC, chainLength, parseC]
  | jarrCons v r ihv ihr =>
    intro fuel rest hv
    have hv2 := hv
    simp only [ValidJ, Bool.and_eq_true, decide_eq_true_eq] at hv2
    obtain ⟨⟨⟨hvv, hvr⟩, hshape⟩, hcl⟩ := hv2
    have hC : ∀ fuel2 rest2, jsize (JVal.jarrCons v r) ≤ fuel2 →
        parseC fuel2 (CMode.items (chainLength (JVal.jarrCons v r)))
          (dumpC DumpMode.arrTail (JVal.jarrCons v r) ++ rest2) =
          some (JVal.jarrCons v r, rest2) := by
      intro fuel2 rest2 hf
      have hjv : 1 ≤ jsize v := jsize_pos v
      have hjr : 1 ≤ jsize r := jsize_pos r
      obtain ⟨f, rfl⟩ : ∃ f, fuel2 = f + 1 :=
        ⟨fuel2 - 1, by simp [jsize] at hf; omega⟩
      simp only [dumpC, chainLength, List.append_assoc, parseC]
      rw [(ihv f (dumpC DumpMode.arrTail r ++ rest2) hvv).1
        (by simp [jsize] at hf; omega)]
      simp only [(ihr f rest2 hvr).2.2 (by simp [jsize] at hf; omega) hshape]
    refine ⟨?_, by intro _ h; simp [isObjShape] at h, fun hf _ => hC fuel rest hf⟩
    intro hf
    obtain ⟨f, rfl⟩ : ∃ f, fuel = f + 1 := ⟨fuel - 1, by simp [jsize] at hf; omega⟩
    obtain ⟨b, tail, heq, hb, hplen⟩ := parseCLen_cborHdr 4 (chainLength r + 1)
      (dumpC DumpMode.arrTail (JVal.jarrCons v r) ++ rest) (by omega) hcl
    have hbne : ¬ (b / 32 = 3) := by omega
    have hbne2 : ¬ (b / 32 = 5) := by omega
    have hbeq : b / 32 = 4 := hb
    simp only [dumpC, List.append_assoc]
    rw [show cborHdr 4 (chainLength r + 1) ++
        (dumpC DumpMode.top v ++ (dumpC DumpMode.arrTail r ++ rest)) =
        cborHdr 4 (chainLength r + 1) ++
        (dumpC DumpMode.arrTail (JVal.jarrCons v r) ++ rest) from by
      simp [dumpC, List.append_assoc]]
    rw [heq]
    simp only [parseC, if_neg hbne, if_neg hbne2, hbeq]
    norm_num
    rw [hplen]
    exact hC f rest (by simp [jsize] at hf ⊢; omega)

theorem cborHdr_length_pos (maj n : Nat) : 1 ≤ (cborHdr maj n).length := by
  unfold cborHdr
  split
  · simp
  · split <;> simp

theorem jsize_le_dumpC (v : JVal) (hv : ValidJ v = true) :
    jsize v + 1 ≤ 2 * (dumpC DumpMode.top v).length ∧
    (isObjShape v = true → jsize v ≤ 2 * (dumpC DumpMode.objTail v).length + 1) ∧
    (isArrShape v = true → jsize v ≤ 2 * (dumpC DumpMode.arrTail v).length + 1) := by
  induction v with
  | jstr s =>
    refine ⟨?_, ?_, ?_⟩
    · have := cborHdr_length_pos 3 s.length
      simp [dumpC, jsize]
      omega
    · intro h
      simp [isObjShape] at h
    · intro h
      simp [isArrShape] at h
  | jobjNil =>
    exact ⟨by simp [dumpC, jsize], by intro; simp [dumpC, jsize],
      by intro h; simp [isArrShape] at h⟩
  | jobjCons k v r ihv ihr =>
    simp only [ValidJ, Bool.and_eq_true] at hv
    obtain ⟨⟨⟨⟨⟨_, hvv⟩, hvr⟩, hshape⟩, _⟩, _⟩ := hv
    have h1 := (ihv hvv).1
    have h2 := (ihr hvr).2.1 hshape
    have h3 := cborHdr_length_pos 5 (chainLength r + 1)
    have h4 := cborHdr_length_pos 3 k.length
    refine ⟨?_, ?_, by intro h; simp [isArrShape] at h⟩ <;>
      (try intro) <;> (simp [dumpC, jsize]; omega)
  | jarrNil =>
    exact ⟨by simp [dumpC, jsize], by intro h; simp [isObjShape] at h,
      by intro; simp [dumpC, jsize]⟩
  | jarrCons v r ihv ihr =>
    simp only [ValidJ, Bool.and_eq_true] at hv
    obtain ⟨⟨⟨hvv, hvr⟩, hshape⟩, _⟩ := hv
    have h1 := (ihv hvv).1
    have h2 := (ihr hvr).2.2 hshape
    have h3 := cborHdr_length_pos 4 (chainLength r + 1)
    refine ⟨?_, by intro h; simp [isObjShape] at h, ?_⟩ <;>
      (try intro) <;> (simp [dumpC, jsize]; omega)

theorem cborLoads_dumpC (v : JVal) (hv : ValidJ v = true) :
    cborLoads (dumpC DumpMode.top v) = some v := by
  unfold cborLoads
  have hsz : jsize v + 1 ≤ 2 * (dumpC DumpMode.top v).length + 2 := by
    have := (jsize_le_dumpC v hv).1
    omega
  have h1 := (parseC_dumpC v (2 * (dumpC DumpMode.top v).length + 2) [] hv).1 hsz
  rw [List.append_nil] at h1
  rw [h1]

/-- The lead byte of a CBOR document of this development is at least 128
(it is always a text-string, map, or array header). -/
theorem cborHdr_cons (maj n : Nat) (rest : List Nat) (hm : 4 ≤ maj) :
    ∃ b bs, cborHdr maj n ++ rest = b :: bs ∧ 128 ≤ b := by
  unfold cborHdr
  split
  · exact ⟨32 * maj + n, rest, rfl, by omega⟩
  · split
    · exact ⟨32 * maj + 24, n :: rest, rfl, by omega⟩
    · exact ⟨32 * maj + 25, n / 256 :: n % 256 :: rest, rfl, by omega⟩

/-- The lead byte of a CBOR map or array document is at least 128, so the
JSON parse attempted first by the deserializer always fails on it. -/
theorem dumpC_top_head (v : JVal) (hv : isObjShape v = true ∨ isArrShape v = true) :
    ∃ b bs, dumpC DumpMode.top v = b :: bs ∧ 128 ≤ b := by
  cases v with
  | jstr s => simp [isObjShape, isArrShape] at hv
  | jobjNil => exact ⟨160, [], rfl, by omega⟩
  | jobjCons k v r =>
    have h := cborHdr_cons 5 (chainLength r + 1)
      (cborHdr 3 k.length ++ k ++ (dumpC DumpMode.top v ++ dumpC DumpMode.objTail r))
      (by omega)
    simpa [dumpC, List.append_assoc] using h
  | jarrNil => exact ⟨128, [], rfl, by omega⟩
  | jarrCons v r =>
    have h := cborHdr_cons 4 (chainLength r + 1)
      (dumpC DumpMode.top v ++ dumpC DumpMode.arrTail r) (by omega)
    simpa [dumpC, List.append_assoc] using h

/-!
## Base64url model

The source encodes the raw signature with
`base64.urlsafe_b64encode(signature).rstrip(b"=")` and the verifier
decodes with `base64.urlsafe_b64decode(sig + "=" * (-len(sig) % 4))`.
`urlsafe_b64decode` translates `-` to `+` and `_` to `/` and then calls
`b64decode` with `validate=False`, that is, the non-strict
`binascii.a2b_base64` loop: characters outside the standard alphabet
(including, after translation, any remaining `-` or `_`) are silently
skipped, a pad sequence completing a quad ends the decode, and only an
input ending mid-quad raises `binascii.Error` (`none` here, which the
source catches).  The preliminary ASCII re-encoding of a `str` argument
is modelled for code points below 128 (the source does not catch the
error a larger code point raises, so the theorems assume ASCII
signature strings).
-/

/-- Base64url alphabet character for a sextet. -/
def b64Char (n : Nat) : Nat :=
  if n < 26 then 65 + n
  else if n < 52 then 97 + (n - 26)
  else if n < 62 then 48 + (n - 52)
  else if n = 62 then 45
  else 95

/-- Sextet table of `binascii.a2b_base64`: the standard alphabet only;
characters without an entry are skipped in non-strict mode. -/
def b64StdInv (c : Nat) : Option Nat :=
  if 65 ≤ c ∧ c ≤ 90 then some (c - 65)
  else if 97 ≤ c ∧ c ≤ 122 then some (c - 97 + 26)
  else if 48 ≤ c ∧ c ≤ 57 then some (c - 48 + 52)
  else if c = 43 then some 62
  else if c = 47 then some 63
  else none

/-- The character translation of `urlsafe_b64decode`: `-` to `+` and
`_` to `/`. -/
def urlTr (c : Nat) : Nat := if c = 45 then 43 else if c = 95 then 47 else c

/-- Padded base64url encoding (model of `base64.urlsafe_b64encode`). -/
def b64Encode : List Nat → List Nat
  | [] => []
  | [a] => [b64Char (a / 4), b64Char (a % 4 * 16), 61, 61]
  | [a, b] => [b64Char (a / 4), b64Char (a % 4 * 16 + b / 16), b64Char (b % 16 * 4), 61]
  | a :: b :: c :: rest =>
      b64Char (a / 4) :: b64Char (a % 4 * 16 + b / 16) ::
        b64Char (b % 16 * 4 + c / 64) :: b64Char (c % 64) :: b64Encode rest

/-- Removal of trailing `=` characters (model of `bytes.rstrip(b"=")`). -/
def rstripEq : List Nat → List Nat
  | [] => []
  | c :: rest =>
    let r := rstripEq rest
    if r = [] ∧ c = 61 then [] else c :: r

/-- Re-padding before decoding (model of `sig + "=" * (-len(sig) % 4)`). -/
def b64pad (s : List Nat) : List Nat :=
  s ++ List.replicate ((4 - s.length % 4) % 4) 61

/-- Loop of `binascii.a2b_base64` in non-strict mode (`validate=False`):
`quad_pos`, `leftchar` and `pads` as in the C source.  A pad character
is skipped while the quad has fewer than two data characters, and ends
the decode once it completes a quad of two or three; characters without
a table entry are skipped; input ending mid-quad is `binascii.Error`
(`none`), discarding all output. -/
def a2bGo : Nat → Nat → Nat → List Nat → Option (List Nat)
  | quad_pos, _, _, [] => if quad_pos = 0 then some [] else none
  | quad_pos, leftchar, pads, c :: rest =>
    if c = 61 then
      if 2 ≤ quad_pos ∧ 4 ≤ quad_pos + (pads + 1) then some []
      else a2bGo quad_pos leftchar (if 2 ≤ quad_pos then pads + 1 else pads) rest
    else
      match b64StdInv c with
      | none => a2bGo quad_pos leftchar pads rest
      | some d =>
        if quad_pos = 0 then a2bGo 1 d 0 rest
        else if quad_pos = 1 then
          Option.map (fun bs => (leftchar * 4 + d / 16) :: bs) (a2bGo 2 (d % 16) 0 rest)
        else if quad_pos = 2 then
          Option.map (fun bs => (leftchar * 16 + d / 4) :: bs) (a2bGo 3 (d % 4) 0 rest)
        else
          Option.map (fun bs => (leftchar * 64 + d) :: bs) (a2bGo 0 0 0 rest)

/-- Model of `base64.urlsafe_b64decode` as the source calls it: the
URL-safe translation followed by the non-strict `binascii.a2b_base64`
loop (faithful for ASCII arguments, see the section note). -/
def b64Decode (s : List Nat) : Option (List Nat) :=
  a2bGo 0 0 0 (s.map urlTr)

theorem b64StdInv_urlTr_b64Char : ∀ n, n < 64 →
    b64StdInv (urlTr (b64Char n)) = some n := by decide

theorem urlTr_b64Char_ne_61 : ∀ n, n < 64 → urlTr (b64Char n) ≠ 61 := by decide

theorem a2bGo_data0 (c d left pads : Nat) (l : List Nat) (hne : c ≠ 61)
    (hd : b64StdInv c = some d) :
    a2bGo 0 left pads (c :: l) = a2bGo 1 d 0 l := by
  simp only [a2bGo]
  rw [if_neg hne, hd]
  rfl

theorem a2bGo_data1 (c d left pads : Nat) (l : List Nat) (hne : c ≠ 61)
    (hd : b64StdInv c = some d) :
    a2bGo 1 left pads (c :: l) =
      Option.map (fun bs => (left * 4 + d / 16) :: bs) (a2bGo 2 (d % 16) 0 l) := by
  simp only [a2bGo]
  rw [if_neg hne, hd]
  rfl

theorem a2bGo_data2 (c d left pads : Nat) (l : List Nat) (hne : c ≠ 61)
    (hd : b64StdInv c = some d) :
    a2bGo 2 left pads (c :: l) =
      Option.map (fun bs => (left * 16 + d / 4) :: bs) (a2bGo 3 (d % 4) 0 l) := by
  simp only [a2bGo]
  rw [if_neg hne, hd]
  rfl

theorem a2bGo_data3 (c d left pads : Nat) (l : List Nat) (hne : c ≠ 61)
    (hd : b64StdInv c = some d) :
    a2bGo 3 left pads (c :: l) =
      Option.map (fun bs => (left * 64 + d) :: bs) (a2bGo 0 0 0 l) := by
  simp only [a2bGo]
  rw [if_neg hne, hd]
  rfl

theorem a2bGo_pad22 (left : Nat) : a2bGo 2 left 0 [61, 61] = some [] := rfl

theorem a2bGo_pad31 (left : Nat) : a2bGo 3 left 0 [61] = some [] := rfl

theorem b64Char_ne_61 : ∀ n, n < 64 → b64Char n ≠ 61 := by decide

theorem b64Char_safe : ∀ n, n < 64 → SafeChar (b64Char n) = true := by decide

theorem rstripEq_cons_ne (c : Nat) (l : List Nat) (hc : c ≠ 61) :
    rstripEq (c :: l) = c :: rstripEq l := by
  simp [rstripEq, hc]

theorem b64pad_chunk (c1 c2 c3 c4 : Nat) (l : List Nat) :
    b64pad (c1 :: c2 :: c3 :: c4 :: l) = c1 :: c2 :: c3 :: c4 :: b64pad l := by
  unfold b64pad
  simp only [List.length_cons, List.cons_append]
  have h : (4 - (l.length + 1 + 1 + 1 + 1) % 4) % 4 = (4 - l.length % 4) % 4 := by
    omega
  rw [h]

theorem b64Char_ne_61_all (n : Nat) : b64Char n ≠ 61 := by
  unfold b64Char
  split
  · omega
  · split
    · omega
    · split
      · omega
      · split <;> omega

theorem b64pad_rstripEq_b64Encode (bs : List Nat) :
    b64pad (rstripEq (b64Encode bs)) = b64Encode bs := by
  induction bs using b64Encode.induct with
  | case1 =>
    simp [b64Encode, rstripEq, b64pad]
  | case2 a =>
    simp only [b64Encode]
    rw [rstripEq_cons_ne _ _ (b64Char_ne_61_all _),
      rstripEq_cons_ne _ _ (b64Char_ne_61_all _)]
    simp [rstripEq, b64pad]
  | case3 a b =>
    simp only [b64Encode]
    rw [rstripEq_cons_ne _ _ (b64Char_ne_61_all _),
      rstripEq_cons_ne _ _ (b64Char_ne_61_all _),
      rstripEq_cons_ne _ _ (b64Char_ne_61_all _)]
    simp [rstripEq, b64pad]
  | case4 a b c rest ih =>
    simp only [b64Encode]
    rw [rstripEq_cons_ne _ _ (b64Char_ne_61_all _),
      rstripEq_cons_ne _ _ (b64Char_ne_61_all _),
      rstripEq_cons_ne _ _ (b64Char_ne_61_all _),
      rstripEq_cons_ne _ _ (b64Char_ne_61_all _)]
    rw [b64pad_chunk]
    rw [ih]

theorem b64Decode_b64Encode (bs : List Nat) (h : ∀ b ∈ bs, b < 256) :
    b64Decode (b64Encode bs) = some bs := by
  induction bs using b64Encode.induct with
  | case1 => rfl
  | case2 a =>
    have ha : a < 256 := h a (by simp)
    simp only [b64Encode, b64Decode, List.map_cons, List.map_nil,
      show urlTr 61 = 61 from rfl]
    rw [a2bGo_data0 _ (a / 4) _ _ _ (urlTr_b64Char_ne_61 _ (by omega))
      (b64StdInv_urlTr_b64Char _ (by omega))]
    rw [a2bGo_data1 _ (a % 4 * 16) _ _ _ (urlTr_b64Char_ne_61 _ (by omega))
      (b64StdInv_urlTr_b64Char _ (by omega))]
    rw [a2bGo_pad22]
    simp only [Option.map, Option.some.injEq, List.cons.injEq, and_true]
    omega
  | case3 a b =>
    have ha : a < 256 := h a (by simp)
    have hb : b < 256 := h b (by simp)
    simp only [b64Encode, b64Decode, List.map_cons, List.map_nil,
      show urlTr 61 = 61 from rfl]
    rw [a2bGo_data0 _ (a / 4) _ _ _ (urlTr_b64Char_ne_61 _ (by omega))
      (b64StdInv_urlTr_b64Char _ (by omega))]
    rw [a2bGo_data1 _ (a % 4 * 16 + b / 16) _ _ _ (urlTr_b64Char_ne_61 _ (by omega))
      (b64StdInv_urlTr_b64Char _ (by omega))]
    rw [a2bGo_data2 _ (b % 16 * 4) _ _ _ (urlTr_b64Char_ne_61 _ (by omega))
      (b64StdInv_urlTr_b64Char _ (by omega))]
    rw [a2bGo_pad31]
    simp only [Option.map, Option.some.injEq, List.cons.injEq, and_true]
    omega
  | case4 a b c rest ih =>
    have ha : a < 256 := h a (by simp)
    have hb : b < 256 := h b (by simp)
    have hc : c < 256 := h c (by simp)
    simp only [b64Encode, b64Decode, List.map_cons]
    rw [a2bGo_data0 _ (a / 4) _ _ _ (urlTr_b64Char_ne_61 _ (by omega))
      (b64StdInv_urlTr_b64Char _ (by omega))]
    rw [a2bGo_data1 _ (a % 4 * 16 + b / 16) _ _ _ (urlTr_b64Char_ne_61 _ (by omega))
      (b64StdInv_urlTr_b64Char _ (by omega))]
    rw [a2bGo_data2 _ (b % 16 * 4 + c / 64) _ _ _ (urlTr_b64Char_ne_61 _ (by omega))
      (b64StdInv_urlTr_b64Char _ (by omega))]
    rw [a2bGo_data3 _ (c % 64) _ _ _ (urlTr_b64Char_ne_61 _ (by omega))
      (b64StdInv_urlTr_b64Char _ (by omega))]
    rw [show a2bGo 0 0 0 ((b64Encode rest).map urlTr) = b64Decode (b64Encode rest)
      from rfl]
    rw [ih (fun x hx => h x (by simp [hx]))]
    simp only [Option.map, Option.some.injEq, List.cons.injEq, and_true]
    omega

theorem b64_roundtrip (bs : List Nat) (h : ∀ b ∈ bs, b < 256) :
    b64Decode (b64pad (rstripEq (b64Encode bs))) = some bs := by
  rw [b64pad_rstripEq_b64Encode, b64Decode_b64Encode bs h]

/-- The decoder accepts the standard alphabet as well as the URL-safe
one and skips characters outside both, as `b64decode` with
`validate=False` does. -/
theorem b64Decode_nonstrict_example :
    b64Decode (S "+/A=") = some [251, 240] ∧
    b64Decode (S "-_A=") = some [251, 240] ∧
    b64Decode (S "-!_A=") = some [251, 240] := by decide

theorem mem_rstripEq (x : Nat) (l : List Nat) (hx : x ∈ rstripEq l) : x ∈ l := by
  induction l with
  | nil => simp [rstripEq] at hx
  | cons c rest ih =>
    simp only [rstripEq] at hx
    split at hx
    · simp at hx
    · rcases List.mem_cons.mp hx with h1 | h1
      · simp [h1]
      · exact List.mem_cons_of_mem c (ih h1)

theorem mem_b64Encode_safe (bs : List Nat) (x : Nat) (hx : x ∈ b64Encode bs) :
    SafeChar x = true := by
  have h61 : SafeChar 61 = true := by decide
  have hchar : ∀ n, SafeChar (b64Char n) = true := by
    intro n
    unfold b64Char SafeChar
    split
    · simp
      omega
    · split
      · simp
        omega
      · split
        · simp
          omega
        · split <;> simp
  induction bs using b64Encode.induct with
  | case1 => simp [b64Encode] at hx
  | case2 a =>
    simp only [b64Encode, List.mem_cons, List.not_mem_nil, or_false] at hx
    rcases hx with rfl | rfl | rfl | rfl
    · exact hchar _
    · exact hchar _
    · exact h61
    · exact h61
  | case3 a b =>
    simp only [b64Encode, List.mem_cons, List.not_mem_nil, or_false] at hx
    rcases hx with rfl | rfl | rfl | rfl
    · exact hchar _
    · exact hchar _
    · exact hchar _
    · exact h61
  | case4 a b c rest ih =>
    simp only [b64Encode, List.mem_cons] at hx
    rcases hx with rfl | rfl | rfl | rfl | hmem
    · exact hchar _
    · exact hchar _
    · exact hchar _
    · exact hchar _
    · exact ih hmem

theorem length_rstripEq_le (l : List Nat) : (rstripEq l).length ≤ l.length := by
  induction l with
  | nil => simp [rstripEq]
  | cons c rest ih =>
    simp only [rstripEq]
    split
    · simp
    · simp only [List.length_cons]
      omega

theorem length_b64Encode_le (bs : List Nat) :
    (b64Encode bs).length ≤ 4 * bs.length + 4 := by
  induction bs using b64Encode.induct with
  | case1 => simp [b64Encode]
  | case2 a => simp [b64Encode]
  | case3 a b => simp [b64Encode]
  | case4 a b c rest ih =>
    simp only [b64Encode, List.length_cons]
    omega

/-!
## Datetime model

Embedding of the inputs and library behaviour used by
`UnicodeMetadata._format_timestamp`: Python `datetime`/`date` values,
epoch seconds, and ISO 8601 strings parsed via
`datetime.fromisoformat(ts.replace("Z", "+00:00"))`.  Calendar
arithmetic follows the standard civil-from-days/days-from-civil
algorithms over the proleptic Gregorian calendar, which is the calendar
`datetime` implements.  Range validation (years 1..9999) mirrors the
`datetime` constructor; an aware value whose UTC conversion leaves that
range raises `OverflowError` in Python (datetime arithmetic), while
`fromtimestamp` failures surface as `ValueError`.
-/

/-- A Python `datetime.datetime`; `tzOffset` is the `utcoffset` in whole
seconds, `none` for a naive value. -/
structure PyDateTime where
  year : Nat
  month : Nat
  day : Nat
  hour : Nat
  minute : Nat
  second : Nat
  microsecond : Nat
  tzOffset : Option Int
deriving Repr, DecidableEq

/-- A Python `datetime.date`. -/
structure PyDate where
  year : Nat
  month : Nat
  day : Nat
deriving Repr, DecidableEq

/-- Gregorian leap-year rule. -/
def isLeapYear (y : Nat) : Bool :=
  (y % 4 = 0 && decide (y % 100 ≠ 0)) || y % 400 = 0

/-- Days in a month of the proleptic Gregorian calendar. -/
def daysInMonth (y m : Nat) : Nat :=
  if m = 2 then (if isLeapYear y then 29 else 28)
  else if m = 4 || m = 6 || m = 9 || m = 11 then 30
  else 31

/-- Invariants enforced by the `datetime.date` constructor. -/
def PyDate.Valid (d : PyDate) : Bool :=
  decide (1 ≤ d.year) && decide (d.year ≤ 9999) && decide (1 ≤ d.month) &&
    decide (d.month ≤ 12) && decide (1 ≤ d.day) &&
    decide (d.day ≤ daysInMonth d.year d.month)

/-- Invariants enforced by the `datetime.datetime` constructor together
with `timezone`s bound on offsets (strictly less than a day). -/
def PyDateTime.Valid (dt : PyDateTime) : Bool :=
  decide (1 ≤ dt.year) && decide (dt.year ≤ 9999) && decide (1 ≤ dt.month) &&
    decide (dt.month ≤ 12) && decide (1 ≤ dt.day) &&
    decide (dt.day ≤ daysInMonth dt.year dt.month) &&
    decide (dt.hour < 24) && decide (dt.minute < 60) && decide (dt.second < 60) &&
    decide (dt.microsecond < 1000000) &&
    (match dt.tzOffset with
      | none => true
      | some o => decide (-86400 < o) && decide (o < 86400))

/-- Days since 1970-01-01 of a civil date (standard days-from-civil
algorithm, defined for years from 1 upward). -/
def daysFromCivilN (y m d : Nat) : Int :=
  let y2 := if m ≤ 2 then y - 1 else y
  let era := y2 / 400
  let yoe := y2 % 400
  let mp := (m + 9) % 12
  let doy := (153 * mp + 2) / 5 + d - 1
  let doe := yoe * 365 + yoe / 4 - yoe / 100 + doy
  (era * 146097 + doe : Int) - 719468

/-- Civil date of a day number relative to 1970-01-01 (standard
civil-from-days algorithm). -/
def civilFromDays (z : Int) : Int × Nat × Nat :=
  let z2 := z + 719468
  let era := Int.fdiv z2 146097
  let doe := (z2 - era * 146097).toNat
  let yoe := (doe - doe / 1460 + doe / 36524 - doe / 146096) / 365
  let y := era * 400 + yoe
  let doy := doe - (365 * yoe + yoe / 4 - yoe / 100)
  let mp := (5 * doy + 2) / 153
  let d := doy - (153 * mp + 2) / 5 + 1
  let m := if mp < 10 then mp + 3 else mp - 9
  (if m ≤ 2 then y + 1 else y, m, d)

/-- Epoch seconds of a naive datetime read as UTC. -/
def epochOfNaive (dt : PyDateTime) : Int :=
  daysFromCivilN dt.year dt.month dt.day * 86400 +
    (dt.hour * 3600 + dt.minute * 60 + dt.second)

/-- Civil UTC fields of an epoch second count. -/
def dtFromEpoch (secs : Int) : Int × Nat × Nat × Nat × Nat × Nat :=
  let days := Int.fdiv secs 86400
  let rem := (secs - days * 86400).toNat
  let c := civilFromDays days
  (c.1, c.2.1, c.2.2, rem / 3600, rem % 3600 / 60, rem % 60)

/-- Exceptions `_format_timestamp` can surface. -/
inductive TsErr | valueError | typeError | overflowError
deriving Repr, DecidableEq

/-- Smallest epoch second a 64-bit platform `time_t` holds. -/
def TIME_T_MIN : Int := -(2 ^ 63)

/-- Largest epoch second a 64-bit platform `time_t` holds. -/
def TIME_T_MAX : Int := 2 ^ 63 - 1

/-- Model of `datetime.fromtimestamp(secs, tz=timezone.utc)`: an epoch
beyond the platform `time_t` range raises `OverflowError`, which the
caller catches with `except (OSError, ValueError)` and therefore does
not handle; an epoch within `time_t` whose civil date leaves years
1..9999 raises `ValueError` (or `OSError` from the platform `gmtime`),
which the source catches and re-raises as `ValueError`. -/
def fromtimestampUTC (secs : Int) (micro : Nat) : Except TsErr PyDateTime :=
  if secs < TIME_T_MIN ∨ TIME_T_MAX < secs then .error .overflowError
  else
    let f := dtFromEpoch secs
    if 1 ≤ f.1 ∧ f.1 ≤ 9999 then
      .ok ⟨f.1.toNat, f.2.1, f.2.2.1, f.2.2.2.1, f.2.2.2.2.1, f.2.2.2.2.2, micro, some 0⟩
    else .error .valueError

/-- Model of the UTC normalization step of `_format_timestamp`: a naive
value is re-tagged as UTC (`replace(tzinfo=utc)`), an aware value is
converted with `astimezone(utc)`; datetime arithmetic leaving years
1..9999 raises `OverflowError`. -/
def normalizeToUTC (dt : PyDateTime) : Except TsErr PyDateTime :=
  match dt.tzOffset with
  | none => .ok { dt with tzOffset := some 0 }
  | some off =>
    if off = 0 then .ok { dt with tzOffset := some 0 }
    else
      let secs := epochOfNaive dt - off
      let f := dtFromEpoch secs
      if 1 ≤ f.1 ∧ f.1 ≤ 9999 then
        .ok ⟨f.1.toNat, f.2.1, f.2.2.1, f.2.2.2.1, f.2.2.2.2.1, f.2.2.2.2.2,
          dt.microsecond, some 0⟩
      else .error .overflowError

/-- Two decimal digits, zero padded. -/
def pad2 (n : Nat) : List Nat := [48 + n / 10 % 10, 48 + n % 10]

/-- Four decimal digits, zero padded. -/
def pad4 (n : Nat) : List Nat :=
  [48 + n / 1000 % 10, 48 + n / 100 % 10, 48 + n / 10 % 10, 48 + n % 10]

/-- Decimal rendering of `%Y` by glibc `strftime`: no zero padding, so
years below 1000 print with fewer than four digits (years of a
`datetime` stay in 1..9999, so four digits suffice). -/
def yearDigits (y : Nat) : List Nat :=
  if y < 10 then [48 + y]
  else if y < 100 then [48 + y / 10, 48 + y % 10]
  else if y < 1000 then [48 + y / 100, 48 + y / 10 % 10, 48 + y % 10]
  else pad4 y

/-- Model of `dt.strftime("%Y-%m-%dT%H:%M:%SZ")` as glibc renders it:
every field except the year is zero padded to two digits. -/
def strftimeISO (dt : PyDateTime) : List Nat :=
  yearDigits dt.year ++ [45] ++ pad2 dt.month ++ [45] ++ pad2 dt.day ++ [84] ++
    pad2 dt.hour ++ [58] ++ pad2 dt.minute ++ [58] ++ pad2 dt.second ++ [90]

/-- A decimal digit code point. -/
def isDigit (c : Nat) : Bool := decide (48 ≤ c) && decide (c ≤ 57)

/-- The exact shape `YYYY-MM-DDTHH:MM:SSZ`. -/
def matchesPattern (s : List Nat) : Bool :=
  match s with
  | [y1, y2, y3, y4, 45, m1, m2, 45, d1, d2, 84, h1, h2, 58, n1, n2, 58, s1, s2, 90] =>
      isDigit y1 && isDigit y2 && isDigit y3 && isDigit y4 && isDigit m1 &&
        isDigit m2 && isDigit d1 && isDigit d2 && isDigit h1 && isDigit h2 &&
        isDigit n1 && isDigit n2 && isDigit s1 && isDigit s2
  | _ => false

theorem matchesPattern_strftimeISO (dt : PyDateTime) (hy : 1000 ≤ dt.year) :
    matchesPattern (strftimeISO dt) = true := by
  have hyd : yearDigits dt.year = pad4 dt.year := by
    unfold yearDigits
    rw [if_neg (by omega), if_neg (by omega), if_neg (by omega)]
  have hd : ∀ n : Nat, isDigit (48 + n % 10) = true := by
    intro n
    simp only [isDigit, Bool.and_eq_true, decide_eq_true_eq]
    omega
  have hd2 : ∀ n k : Nat, isDigit (48 + n / k % 10) = true := fun n k => hd (n / k)
  simp only [strftimeISO, hyd, pad4, pad2, List.cons_append, List.nil_append,
    matchesPattern, hd, hd2, Bool.and_self]

theorem yearDigits_length_le (y : Nat) : (yearDigits y).length ≤ 4 := by
  unfold yearDigits
  split
  · simp
  · split
    · simp
    · split
      · simp
      · simp [pad4]

theorem mem_yearDigits_safe (y c : Nat) (hc : c ∈ yearDigits y) :
    SafeChar c = true := by
  unfold yearDigits at hc
  split at hc
  · simp only [List.mem_singleton] at hc
    subst hc
    simp only [SafeChar, Bool.and_eq_true, decide_eq_true_eq]
    omega
  · split at hc
    · simp only [List.mem_cons, List.not_mem_nil, or_false] at hc
      rcases hc with rfl | rfl <;>
        · simp only [SafeChar, Bool.and_eq_true, decide_eq_true_eq]
          omega
    · split at hc
      · simp only [List.mem_cons, List.not_mem_nil, or_false] at hc
        rcases hc with rfl | rfl | rfl <;>
          · simp only [SafeChar, Bool.and_eq_true, decide_eq_true_eq]
            omega
      · simp only [pad4, List.mem_cons, List.not_mem_nil, or_false] at hc
        rcases hc with rfl | rfl | rfl | rfl <;>
          · simp only [SafeChar, Bool.and_eq_true, decide_eq_true_eq]
            omega

theorem yearDigits_all_safe (y : Nat) : (yearDigits y).all SafeChar = true := by
  rw [List.all_eq_true]
  exact fun c hc => mem_yearDigits_safe y c hc

theorem pad2_all_safe (n : Nat) : (pad2 n).all SafeChar = true := by
  simp only [pad2, List.all_cons, List.all_nil, Bool.and_true, Bool.and_eq_true]
  constructor <;>
    · simp only [SafeChar, Bool.and_eq_true, decide_eq_true_eq]
      omega

theorem SafeStr_strftimeISO (dt : PyDateTime) : SafeStr (strftimeISO dt) = true := by
  unfold SafeStr
  rw [Bool.and_eq_true]
  refine ⟨?_, ?_⟩
  · simp only [strftimeISO, List.all_append, yearDigits_all_safe, pad2_all_safe,
      List.all_cons, List.all_nil, Bool.and_true, Bool.true_and, Bool.and_self]
    decide
  · simp only [strftimeISO, List.length_append, pad2, List.length_cons,
      List.length_nil, decide_eq_true_eq]
    have := yearDigits_length_le dt.year
    omega

/-- Numeric value of a digit code point. -/
def digitVal (c : Nat) : Option Nat :=
  if 48 ≤ c ∧ c ≤ 57 then some (c - 48) else none

/-- Parse exactly two digits. -/
def parse2 : List Nat → Option (Nat × List Nat)
  | c1 :: c2 :: rest =>
    match digitVal c1, digitVal c2 with
    | some a, some b => some (a * 10 + b, rest)
    | _, _ => none
  | _ => none

/-- Parse exactly four digits. -/
def parse4 : List Nat → Option (Nat × List Nat)
  | c1 :: c2 :: c3 :: c4 :: rest =>
    match digitVal c1, digitVal c2, digitVal c3, digitVal c4 with
    | some a, some b, some c, some d => some (a * 1000 + b * 100 + c * 10 + d, rest)
    | _, _, _, _ => none
  | _ => none

/-- Numeric value of a digit string. -/
def natOfDigits (ds : List Nat) : Nat :=
  ds.foldl (fun a c => a * 10 + (c - 48)) 0

/-- Parse a UTC offset body `HH:MM[:SS]` (seconds east, before sign). -/
def parseOffsetBody (r : List Nat) : Option Int :=
  match parse2 r with
  | some (hh, 58 :: r2) =>
    (match parse2 r2 with
      | some (mm, r3) =>
        (match r3 with
          | [] => if hh < 24 ∧ mm < 60 then some (hh * 3600 + mm * 60 : Nat) else none
          | 58 :: r4 =>
            (match parse2 r4 with
              | some (ss, []) =>
                if hh < 24 ∧ mm < 60 ∧ ss < 60 then
                  some (hh * 3600 + mm * 60 + ss : Nat)
                else none
              | _ => none)
          | _ => none)
      | none => none)
  | _ => none

/-- Parse the optional trailing offset; the input must end here. -/
def parseTzEnd : List Nat → Option (Option Int)
  | [] => some none
  | 43 :: r => (parseOffsetBody r).map (fun o => some o)
  | 45 :: r => (parseOffsetBody r).map (fun o => some (-o))
  | _ => none

/-- Parse the time-of-day part `HH[:MM[:SS[.fff[fff]]]][offset]`. -/
def parseIsoTime (r : List Nat) : Option (Nat × Nat × Nat × Nat × Option Int) :=
  match parse2 r with
  | none => none
  | some (h, r1) =>
    match r1 with
    | 58 :: r2 =>
      (match parse2 r2 with
        | none => none
        | some (mi, r3) =>
          match r3 with
          | 58 :: r4 =>
            (match parse2 r4 with
              | none => none
              | some (s, r5) =>
                match r5 with
                | 46 :: r6 =>
                  let ds := r6.takeWhile (fun c => decide (48 ≤ c) && decide (c ≤ 57))
                  let r7 := r6.dropWhile (fun c => decide (48 ≤ c) && decide (c ≤ 57))
                  (match parseTzEnd r7 with
                    | some tz =>
                      if ds.length = 3 then some (h, mi, s, natOfDigits ds * 1000, tz)
                      else if ds.length = 6 then some (h, mi, s, natOfDigits ds, tz)
                      else none
                    | none => none)
                | _ =>
                  match parseTzEnd r5 with
                  | some tz => some (h, mi, s, 0, tz)
                  | none => none)
          | _ =>
            match parseTzEnd r3 with
            | some tz => some (h, mi, 0, 0, tz)
            | none => none)
    | _ =>
      match parseTzEnd r1 with
      | some tz => some (h, 0, 0, 0, tz)
      | none => none

/-- Model of `datetime.fromisoformat` (the strict pre-3.11 grammar:
`YYYY-MM-DD`, optionally a single separator character and
`HH[:MM[:SS[.fff[fff]]]]`, optionally a `+HH:MM[:SS]` offset), including
the field validation the `datetime` constructor performs. -/
def fromisoformat (s : List Nat) : Option PyDateTime :=
  match parse4 s with
  | some (y, 45 :: r1) =>
    (match parse2 r1 with
      | some (mo, 45 :: r2) =>
        (match parse2 r2 with
          | some (dy, r3) =>
            let build : Nat × Nat × Nat × Nat × Option Int → Option PyDateTime :=
              fun t =>
                let dt : PyDateTime := ⟨y, mo, dy, t.1, t.2.1, t.2.2.1, t.2.2.2.1,
                  t.2.2.2.2⟩
                if dt.Valid then some dt else none
            (match r3 with
              | [] => build (0, 0, 0, 0, none)
              | _ :: r4 =>
                match parseIsoTime r4 with
                | some t => build t
                | none => none)
          | _ => none)
      | _ => none)
  | _ => none

/-- The substitution `ts.replace("Z", "+00:00")` applied by the source
before parsing. -/
def replaceZ (s : List Nat) : List Nat :=
  s.flatMap (fun c => if c = 90 then [43, 48, 48, 58, 48, 48] else [c])

/-- Inputs accepted by `_format_timestamp` (other than `None`). -/
inductive TsInput where
  | dt (d : PyDateTime)
  | dateOnly (d : PyDate)
  | intEpoch (n : Int)
  | floatEpoch (sec : Int) (micro : Nat)
  | str (s : List Nat)
deriving Repr

/-- Conversion of each accepted input kind to a `PyDateTime`, mirroring
the branch structure of `_format_timestamp` (source lines 210-234). -/
def tsToDatetime : TsInput → Except TsErr PyDateTime
  | .dt d => .ok d
  | .dateOnly d => .ok ⟨d.year, d.month, d.day, 0, 0, 0, 0, none⟩
  | .intEpoch n => fromtimestampUTC n 0
  | .floatEpoch sec micro => fromtimestampUTC sec micro
  | .str s =>
    match fromisoformat (replaceZ s) with
    | some d => .ok d
    | none => .error .valueError

/-- Embedding of `UnicodeMetadata._format_timestamp`. -/
def _format_timestamp : Option TsInput → Except TsErr (Option (List Nat))
  | none => .ok none
  | some tsi =>
    match tsToDatetime tsi with
    | .error e => .error e
    | .ok dt =>
      match normalizeToUTC dt with
      | .error e => .error e
      | .ok dtu => .ok (some (strftimeISO dtu))

theorem _format_timestamp_safe (tsi : TsInput) (s : List Nat)
    (h : _format_timestamp (some tsi) = .ok (some s)) : SafeStr s = true := by
  unfold _format_timestamp at h
  cases htd : tsToDatetime tsi with
  | error e => simp [htd] at h
  | ok dt =>
    simp only [htd] at h
    cases hn : normalizeToUTC dt with
    | error e => simp [hn] at h
    | ok dtu =>
      simp only [hn, Except.ok.injEq, Option.some.injEq] at h
      subst h
      exact SafeStr_strftimeISO dtu

/-!
## Signature primitive and serializer front end

Modelled from the spec: `crypto_utils` is not among the provided sources.
`sign_payload`/`verify_signature` model Ed25519 as a perfect deterministic
signature scheme with fixed 64-byte signatures: a signature verifies under
the public key of a pair exactly when it is the signature of that message
under the pairs private key.  `verify_signature` accepts the other
asymmetric key variants only to raise a typed error, as the spec states.
`serialize_payload` produces canonical compact JSON; the CBOR and JUMBF
transports wrap the same mapping.
-/

/-- An Ed25519 private key (identified by its seed). -/
structure Ed25519PrivateKey where
  seed : Nat
deriving Repr, DecidableEq

/-- The public key variants the verifier recognizes (the `isinstance`
chain of source lines 668-677), plus `other` for any value outside that
chain. -/
inductive PublicKey where
  | ed25519 (seed : Nat)
  | rsa (seed : Nat)
  | dsa (seed : Nat)
  | dh (seed : Nat)
  | ec (seed : Nat)
  | x25519 (seed : Nat)
  | x448 (seed : Nat)
  | ed448 (seed : Nat)
  | other (seed : Nat)
deriving Repr, DecidableEq

/-- The key passes the `isinstance` chain of asymmetric key types. -/
def isAsymmetricKey : PublicKey → Bool
  | .other _ => false
  | _ => true

/-- Modelled from the spec: deterministic Ed25519 signing, producing a
fixed 64-byte signature depending on the key and the message. -/
def sign_payload (key : Ed25519PrivateKey) (msg : List Nat) : List Nat :=
  (List.range 64).map
    (fun i => (key.seed + i + msg.foldl (fun a b => a * 31 + b + 1) 7) % 256)

/-- Raised by `verify_signature` on a key-type mismatch. -/
inductive CryptoErr | typeErr
deriving Repr, DecidableEq

/-- Modelled from the spec: signature verification returns a boolean for
an Ed25519 public key and raises a typed error for every other key type. -/
def verify_signature (pk : PublicKey) (msg sig : List Nat) : Except CryptoErr Bool :=
  match pk with
  | .ed25519 seed => .ok (decide (sig = sign_payload ⟨seed⟩ msg))
  | _ => .error .typeErr

theorem sign_payload_length (key : Ed25519PrivateKey) (msg : List Nat) :
    (sign_payload key msg).length = 64 := by
  simp [sign_payload]

theorem sign_payload_lt (key : Ed25519PrivateKey) (msg : List Nat) :
    ∀ b ∈ sign_payload key msg, b < 256 := by
  intro b hb
  simp only [sign_payload, List.mem_map] at hb
  obtain ⟨i, _, rfl⟩ := hb
  omega

/-- Serialization formats of `crypto_utils.SerializationFormat`. -/
inductive SerializationFormat | json | cbor | jumbf
deriving Repr, DecidableEq

/-- Modelled from the spec: `serialize_payload` emits canonical compact
JSON; CBOR encodes the same mapping as a CBOR map; JUMBF prefixes the
ASCII bytes `JUMBF` to the JSON form. -/
def serialize_payload (d : JVal) : SerializationFormat → List Nat
  | .json => dumpJ DumpMode.top d
  | .cbor => dumpC DumpMode.top d
  | .jumbf => S "JUMBF" ++ dumpJ DumpMode.top d

/-!
## Target finder
-/

/-- Targets of `constants.MetadataTarget` (modelled from the spec). -/
inductive MetadataTarget
  | whitespace | punctuation | first_letter | last_letter | all_characters
deriving Repr, DecidableEq

/-- Code points matched by the Python regex class `\s`. -/
def isPyWhitespace (c : Nat) : Bool :=
  (9 ≤ c && c ≤ 13) || (28 ≤ c && c ≤ 32) || c = 133 || c = 160 || c = 5760 ||
    (8192 ≤ c && c ≤ 8202) || c = 8232 || c = 8233 || c = 8239 || c = 8287 ||
    c = 12288

/-- The punctuation class `[.,!?;:]`. -/
def isPunct (c : Nat) : Bool :=
  c = 46 || c = 44 || c = 33 || c = 63 || c = 59 || c = 58

/-- Word characters for `\w`/`\b` (the ASCII part of the Unicode class;
the model restricts the Unicode tables to ASCII). -/
def isWordChar (c : Nat) : Bool :=
  (48 ≤ c && c ≤ 57) || (65 ≤ c && c ≤ 90) || (97 ≤ c && c ≤ 122) || c = 95

/-- Whether position `i` of `text` is matched by the regex of `target`
(`(\s)`, `([.,!?;:])`, `(\b\w)`, `(\w\b)`, `(.)` respectively; `.` does
not match a newline). -/
def matchesTargetAt (target : MetadataTarget) (text : List Nat) (i : Nat) : Bool :=
  match target with
  | .whitespace => isPyWhitespace (text.getD i 0)
  | .punctuation => isPunct (text.getD i 0)
  | .first_letter => isWordChar (text.getD i 0) &&
      (decide (i = 0) || !isWordChar (text.getD (i - 1) 0))
  | .last_letter => isWordChar (text.getD i 0) &&
      (decide (i + 1 = text.length) || !isWordChar (text.getD (i + 1) 0))
  | .all_characters => decide (text.getD i 0 ≠ 10)

/-- Embedding of `UnicodeMetadata.find_targets`: the ascending list of
match positions. -/
def find_targets (text : List Nat) (target : MetadataTarget) : List Nat :=
  (List.range text.length).filter (fun i => matchesTargetAt target text i)

theorem find_targets_nil (target : MetadataTarget) : find_targets [] target = [] := by
  simp [find_targets]

theorem find_targets_lt (text : List Nat) (target : MetadataTarget) :
    ∀ i ∈ find_targets text target, i < text.length := by
  intro i hi
  simp only [find_targets, List.mem_filter, List.mem_range] at hi
  exact hi.1

/-!
## Payload construction and embedding
-/

/-- Python dict assignment `d[k] = v` on an object chain: update in place
when the key exists, append otherwise. -/
def chainSet : JVal → List Nat → JVal → JVal
  | .jobjCons k2 v2 r, k, v =>
    if k2 = k then .jobjCons k2 v r else .jobjCons k2 v2 (chainSet r k v)
  | .jobjNil, k, v => .jobjCons k v .jobjNil
  | x, _, _ => x

/-- Python truthiness of the values the source tests with `if x:`. -/
def pyTruthy : JVal → Bool
  | .jstr s => decide (s ≠ [])
  | .jobjNil => false
  | .jobjCons _ _ _ => true
  | .jarrNil => false
  | .jarrCons _ _ => true

/-- The payload formats of `embed_metadata`. -/
inductive MetadataFormat | basic | manifest
deriving Repr, DecidableEq

/-- The literal value of the `format` field. -/
def fmtStr : MetadataFormat → List Nat
  | .basic => S "basic"
  | .manifest => S "manifest"

/-- The reserved keys of the basic payload (source line 413). -/
def isStandardKey (k : List Nat) : Bool :=
  decide (k = S "signer_id") || decide (k = S "timestamp") ||
    decide (k = S "format") || decide (k = S "model_id") ||
    decide (k = S "generationID")

/-- Whether any custom-metadata key collides with a standard key. -/
def chainAnyStd : JVal → Bool
  | .jobjCons k _ r => isStandardKey k || chainAnyStd r
  | _ => false

/-- The filtered custom metadata `{k: v for k, v in cm.items() if k not in
standard_keys}`. -/
def chainFilterStd : JVal → JVal
  | .jobjCons k v r =>
    if isStandardKey k then chainFilterStd r else .jobjCons k v (chainFilterStd r)
  | x => x

/-- Conditional insertion `if s: d[key] = s` of an optional string. -/
def setOptStr (m : JVal) (key : List Nat) : Option (List Nat) → JVal
  | some s => if s ≠ [] then chainSet m key (.jstr s) else m
  | none => m

/-- Conditional insertion `if v: d[key] = v` of an optional dict or list. -/
def setOptTruthy (m : JVal) (key : List Nat) : Option JVal → JVal
  | some v => if pyTruthy v then chainSet m key v else m
  | none => m

/-- Construction of the basic payload dict (source lines 400-420). -/
def buildBasicPayload (signer_id iso : List Nat)
    (model_id generationID : Option (List Nat)) (custom_metadata : Option JVal) :
    JVal :=
  let p := JVal.jobjCons (S "signer_id") (.jstr signer_id)
    (.jobjCons (S "timestamp") (.jstr iso)
      (.jobjCons (S "format") (.jstr (S "basic")) .jobjNil))
  let p := setOptStr p (S "model_id") model_id
  let p := setOptStr p (S "generationID") generationID
  match custom_metadata with
  | some cm =>
    if pyTruthy cm then
      if chainAnyStd cm then chainSet p (S "custom_metadata") (chainFilterStd cm)
      else chainSet p (S "custom_metadata") cm
    else p
  | none => p

/-- The `model_id` merge of the manifest branch (source lines 443-447):
ensure an `ai_info` entry exists, then set `model_id` inside it. -/
def mergeModelId (m : JVal) : Option (List Nat) → JVal
  | some mid =>
    if mid ≠ [] then
      let m2 := if chainHasKey m (S "ai_info") then m
        else chainSet m (S "ai_info") .jobjNil
      chainSet m2 (S "ai_info")
        (chainSet ((chainGet m2 (S "ai_info")).getD .jobjNil) (S "model_id")
          (.jstr mid))
    else m
  | none => m

/-- Construction of the inner manifest dict (source lines 434-451),
including the merge of `model_id` under `ai_info`. -/
def buildInnerManifest (claim_generator : Option (List Nat))
    (actions ai_info custom_claims : Option JVal)
    (model_id : Option (List Nat)) : JVal :=
  let m := setOptStr JVal.jobjNil (S "claim_generator") claim_generator
  let m := setOptTruthy m (S "actions") actions
  let m := setOptTruthy m (S "ai_info") ai_info
  let m := setOptTruthy m (S "custom_claims") custom_claims
  mergeModelId m model_id

/-- Construction of the manifest payload dict (source lines 427-451). -/
def buildManifestPayload (signer_id iso : List Nat) (inner : JVal) : JVal :=
  JVal.jobjCons (S "signer_id") (.jstr signer_id)
    (.jobjCons (S "timestamp") (.jstr iso)
      (.jobjCons (S "format") (.jstr (S "manifest"))
        (.jobjCons (S "manifest") inner .jobjNil)))

/-- The inner payload built by `embed_metadata` for either format. -/
def buildPayload (mf : MetadataFormat) (signer_id iso : List Nat)
    (model_id generationID : Option (List Nat)) (custom_metadata : Option JVal)
    (claim_generator : Option (List Nat)) (actions ai_info custom_claims : Option JVal) :
    JVal :=
  match mf with
  | .basic => buildBasicPayload signer_id iso model_id generationID custom_metadata
  | .manifest => buildManifestPayload signer_id iso
      (buildInnerManifest claim_generator actions ai_info custom_claims model_id)

/-- The outer envelope built by `embed_metadata` (source lines 477-482). -/
def buildOuterPayload (payload : JVal) (signature_b64 signer_id fmt : List Nat) :
    JVal :=
  JVal.jobjCons (S "payload") payload
    (.jobjCons (S "signature") (.jstr signature_b64)
      (.jobjCons (S "signer_id") (.jstr signer_id)
        (.jobjCons (S "format") (.jstr fmt) .jobjNil)))

/-- Exceptions `embed_metadata` raises. -/
inductive EmbedError | typeError | valueError | runtimeError
deriving Repr, DecidableEq

/-- The interleaving loop of the distributed embedding branch (source
lines 539-563): walk the sorted target indices, inserting one selector
after each target character until the selectors are exhausted, then
append the remaining text. -/
def distributeSplice (text : List Nat) : List Nat → Nat → List Nat → List Nat
  | [], last, _ => text.drop last
  | _ :: _, last, [] => text.drop last
  | t :: ts, last, s :: ss =>
    ((text.drop last).take (t - last)) ++
      (text.getD t 0 :: s :: distributeSplice text ts (t + 1) ss)

/-- Embedding of `UnicodeMetadata.embed_metadata`.  Checks expressible
only at the Python type level (`text` a string, `private_key` an
`Ed25519PrivateKey`, flags booleans, enum validity of `target` and the
formats) hold by typing here; the remaining validation, payload
construction, signing, serialization, and splicing follow the source
line by line. -/
def embed_metadata (text : List Nat) (private_key : Ed25519PrivateKey)
    (signer_id : List Nat) (metadata_format : MetadataFormat)
    (serialization_format : SerializationFormat) (model_id : Option (List Nat))
    (timestamp : Option TsInput) (generationID : Option (List Nat))
    (target : Option MetadataTarget) (custom_metadata : Option JVal)
    (claim_generator : Option (List Nat)) (actions : Option JVal)
    (ai_info : Option JVal) (custom_claims : Option JVal)
    (distribute_across_targets : Bool) : Except EmbedError (List Nat) :=
  if signer_id = [] then .error .valueError
  else match timestamp with
  | none => .error .valueError
  | some ts =>
    match _format_timestamp (some ts) with
    | .error _ => .error .valueError
    | .ok none => .error .valueError
    | .ok (some iso) =>
      let payload := buildPayload metadata_format signer_id iso model_id
        generationID custom_metadata claim_generator actions ai_info custom_claims
      let canonical := serialize_payload payload .json
      let signature := sign_payload private_key canonical
      let sig_b64 := rstripEq (b64Encode signature)
      let outer := buildOuterPayload payload sig_b64 signer_id
        (fmtStr metadata_format)
      let outer_bytes := serialize_payload outer serialization_format
      match bytes_to_variation_selectors outer_bytes with
      | none => .error .runtimeError
      | some selector_chars =>
        if selector_chars = [] then .ok text
        else
          let target_indices := find_targets text
            (target.getD MetadataTarget.whitespace)
          match target_indices with
          | [] => .error .valueError
          | i :: restIdx =>
            if distribute_across_targets then
              if (i :: restIdx).length < selector_chars.length then
                .error .valueError
              else .ok (distributeSplice text (i :: restIdx) 0 selector_chars)
            else .ok (text.take (i + 1) ++ selector_chars ++ text.drop (i + 1))

/-!
## Extraction and verification
-/

/-- Embedding of `UnicodeMetadata._deserialize_outer_bytes`: JUMBF-tagged
bytes are stripped and JSON-parsed; otherwise JSON is tried first and
CBOR second. -/
def _deserialize_outer_bytes (data : List Nat) : Option JVal :=
  if (S "JUMBF").isPrefixOf data then jsonLoads (data.drop 5)
  else
    match jsonLoads data with
    | some v => some v
    | none => cborLoads data

/-- The validated outer envelope (the `OuterPayload` TypedDict): the
values stored under the four required keys. -/
structure OuterPayload where
  payload : JVal
  signature : JVal
  signer_id : JVal
  format : JVal
deriving Repr, DecidableEq

/-- Embedding of `UnicodeMetadata._extract_outer_payload`: extract the
variation-selector bytes, deserialize them, and validate that the result
is a mapping holding every required key. -/
def _extract_outer_payload (text : List Nat) : Option OuterPayload :=
  let outer_bytes := extract_bytes text
  if outer_bytes = [] then none
  else
    match _deserialize_outer_bytes outer_bytes with
    | none => none
    | some outer =>
      if isObjShape outer then
        match chainGet outer (S "payload"), chainGet outer (S "signature"),
          chainGet outer (S "signer_id"), chainGet outer (S "format") with
        | some p, some sg, some si, some fm => some ⟨p, sg, si, fm⟩
        | _, _, _, _ => none
      else none

/-- Behaviour of the `public_key_provider` callback on a given signer id:
it either raises or returns an optional key. -/
inductive ResolverResult | raises | returns (k : Option PublicKey)

/-- Embedding of `UnicodeMetadata.verify_and_extract_metadata`.  Every
authentication failure (resolver raised or returned `None`, wrong key
type, malformed signature, failed verification) produces the triple
`(payload when return_payload_on_failure else none, false, signer_id)`
without raising. -/
def verify_and_extract_metadata (text : List Nat)
    (public_key_provider : JVal → ResolverResult)
    (return_payload_on_failure : Bool) :
    Option JVal × Bool × Option JVal :=
  match _extract_outer_payload text with
  | none => (none, false, none)
  | some outer =>
    let fail : Option JVal × Bool × Option JVal :=
      (if return_payload_on_failure then some outer.payload else none,
        false, some outer.signer_id)
    match public_key_provider outer.signer_id with
    | .raises => fail
    | .returns none => fail
    | .returns (some pk) =>
      if !isAsymmetricKey pk then fail
      else
        let canonical := serialize_payload outer.payload .json
        match outer.signature with
        | .jstr sig_b64 =>
          (match b64Decode (b64pad sig_b64) with
            | none => fail
            | some signature_bytes =>
              match verify_signature pk canonical signature_bytes with
              | .error _ => fail
              | .ok true => (some outer.payload, true, some outer.signer_id)
              | .ok false => fail)
        | _ => fail

/-- Embedding of `UnicodeMetadata.verify_metadata`: an empty input
returns `(none, false, none)` immediately; otherwise the call is
forwarded to `verify_and_extract_metadata`. -/
def verify_metadata (text : List Nat) (public_key_provider : JVal → ResolverResult)
    (return_payload_on_failure : Bool) : Option JVal × Bool × Option JVal :=
  if text = [] then (none, false, none)
  else verify_and_extract_metadata text public_key_provider
    return_payload_on_failure

/-- Embedding of `UnicodeMetadata.extract_metadata`. -/
def extract_metadata (text : List Nat) : Option JVal :=
  match _extract_outer_payload text with
  | some outer => if isObjShape outer.payload then some outer.payload else none
  | none => none

/-!
## Validity of constructed payloads
-/

theorem isObjShape_chainSet (d : JVal) (k : List Nat) (v : JVal)
    (hd : isObjShape d = true) : isObjShape (chainSet d k v) = true := by
  cases d with
  | jobjNil => simp [chainSet, isObjShape]
  | jobjCons k2 v2 r =>
    simp only [chainSet]
    split <;> simp [isObjShape]
  | jstr s => simp [isObjShape] at hd
  | jarrNil => simp [isObjShape] at hd
  | jarrCons a b => simp [isObjShape] at hd

theorem chainHasKey_chainSet (d : JVal) (k x : List Nat) (v : JVal)
    (hv : ValidJ d = true) (hd : isObjShape d = true) :
    chainHasKey (chainSet d k v) x = (chainHasKey d x || decide (k = x)) := by
  induction d with
  | jobjNil => simp [chainSet, chainHasKey]
  | jobjCons k2 v2 r ihv ihr =>
    simp only [ValidJ, Bool.and_eq_true] at hv
    obtain ⟨⟨⟨⟨⟨_, _⟩, hvr⟩, hshape⟩, _⟩, _⟩ := hv
    simp only [chainSet]
    split
    · rename_i heq
      subst heq
      simp only [chainHasKey]
      cases h1 : decide (k2 = x) <;> simp [h1]
    · simp only [chainHasKey, ihr hvr hshape, Bool.or_assoc]
  | jstr s => simp [isObjShape] at hd
  | jarrNil => simp [isObjShape] at hd
  | jarrCons a b _ _ => simp [isObjShape] at hd

theorem chainLength_chainSet_le (d : JVal) (k : List Nat) (v : JVal)
    (hd : isObjShape d = true) :
    chainLength (chainSet d k v) ≤ chainLength d + 1 := by
  induction d with
  | jobjNil => simp [chainSet, chainLength]
  | jobjCons k2 v2 r _ ihr =>
    simp only [chainSet]
    split
    · simp [chainLength]
    · simp only [chainLength]
      cases hr : isObjShape r with
      | true =>
        have := ihr hr
        omega
      | false =>
        cases r with
        | jobjNil => simp [isObjShape] at hr
        | jobjCons a b c => simp [isObjShape] at hr
        | jstr s => simp [chainSet, chainLength]
        | jarrNil => simp [chainSet, chainLength]
        | jarrCons a b => simp [chainSet, chainLength]
  | jstr s => simp [isObjShape] at hd
  | jarrNil => simp [isObjShape] at hd
  | jarrCons a b _ _ => simp [isObjShape] at hd

theorem ValidJ_chainSet (d : JVal) (k : List Nat) (v : JVal)
    (hv : ValidJ d = true) (hd : isObjShape d = true) (hk : SafeStr k = true)
    (hval : ValidJ v = true) (hlen : chainLength d + 2 ≤ 65536) :
    ValidJ (chainSet d k v) = true := by
  induction d with
  | jobjNil =>
    simp [chainSet, ValidJ, chainHasKey, chainLength, isObjShape, hk, hval]
  | jobjCons k2 v2 r ihv ihr =>
    have hv2 := hv
    simp only [ValidJ, Bool.and_eq_true, Bool.not_eq_true',
      decide_eq_true_eq] at hv2
    obtain ⟨⟨⟨⟨⟨hk2, hvv2⟩, hvr⟩, hshape⟩, hnok⟩, hln⟩ := hv2
    simp only [chainSet]
    split
    · rename_i heq
      subst heq
      simp only [ValidJ, Bool.and_eq_true, Bool.not_eq_true', decide_eq_true_eq]
      exact ⟨⟨⟨⟨⟨hk2, hval⟩, hvr⟩, hshape⟩, hnok⟩, hln⟩
    · rename_i hne
      have hlen2 : chainLength r + 2 ≤ 65536 := by
        simp only [chainLength] at hlen
        omega
      have h1 := ihr hvr hshape hlen2
      have h2 := chainHasKey_chainSet r k k2 v hvr hshape
      have h3 := isObjShape_chainSet r k v hshape
      have h4 := chainLength_chainSet_le r k v hshape
      simp only [ValidJ, Bool.and_eq_true, Bool.not_eq_true', decide_eq_true_eq]
      refine ⟨⟨⟨⟨⟨hk2, hvv2⟩, h1⟩, h3⟩, ?_⟩, ?_⟩
      · rw [h2]
        have hdk : (decide (k = k2)) = false := by
          simp only [decide_eq_false_iff_not]
          exact fun h => hne h.symm
        rw [hnok, hdk]
        rfl
      · simp only [chainLength] at hlen
        omega
  | jstr s => simp [isObjShape] at hd
  | jarrNil => simp [isObjShape] at hd
  | jarrCons a b _ _ => simp [isObjShape] at hd

/-- Optional strings supplied to the embedder are safe. -/
def SafeOptStr : Option (List Nat) → Bool
  | none => true
  | some s => SafeStr s

/-- Optional JSON values supplied to the embedder are valid. -/
def ValidOptJ : Option JVal → Bool
  | none => true
  | some v => ValidJ v

/-- Optional dicts supplied to the embedder are valid objects with room
for one more entry. -/
def ValidOptObj : Option JVal → Bool
  | none => true
  | some v => ValidJ v && isObjShape v && decide (chainLength v + 2 ≤ 65536)

theorem ValidJ_cons (k : List Nat) (v r : JVal) (hk : SafeStr k = true)
    (hv : ValidJ v = true) (hr : ValidJ r = true) (hs : isObjShape r = true)
    (hnk : chainHasKey r k = false) (hl : chainLength r + 1 < 65536) :
    ValidJ (JVal.jobjCons k v r) = true := by
  simp only [ValidJ, Bool.and_eq_true, Bool.not_eq_true', decide_eq_true_eq]
  exact ⟨⟨⟨⟨⟨hk, hv⟩, hr⟩, hs⟩, hnk⟩, hl⟩

theorem ValidJ_jstr (s : List Nat) (h : SafeStr s = true) :
    ValidJ (JVal.jstr s) = true := h

theorem setOptStr_valid (m : JVal) (key : List Nat) (o : Option (List Nat))
    (hm : ValidJ m = true) (hsh : isObjShape m = true) (hk : SafeStr key = true)
    (ho : SafeOptStr o = true) (hl : chainLength m + 2 ≤ 65536) :
    ValidJ (setOptStr m key o) = true ∧ isObjShape (setOptStr m key o) = true ∧
    chainLength (setOptStr m key o) ≤ chainLength m + 1 := by
  cases o with
  | none => exact ⟨hm, hsh, by simp [setOptStr]⟩
  | some s =>
    simp only [setOptStr]
    split
    · exact ⟨ValidJ_chainSet m key (.jstr s) hm hsh hk ho hl,
        isObjShape_chainSet m key (.jstr s) hsh,
        chainLength_chainSet_le m key (.jstr s) hsh⟩
    · exact ⟨hm, hsh, by omega⟩

theorem setOptTruthy_valid (m : JVal) (key : List Nat) (o : Option JVal)
    (hm : ValidJ m = true) (hsh : isObjShape m = true) (hk : SafeStr key = true)
    (ho : ValidOptJ o = true) (hl : chainLength m + 2 ≤ 65536) :
    ValidJ (setOptTruthy m key o) = true ∧
    isObjShape (setOptTruthy m key o) = true ∧
    chainLength (setOptTruthy m key o) ≤ chainLength m + 1 := by
  cases o with
  | none => exact ⟨hm, hsh, by simp [setOptTruthy]⟩
  | some v =>
    simp only [setOptTruthy]
    split
    · exact ⟨ValidJ_chainSet m key v hm hsh hk ho hl,
        isObjShape_chainSet m key v hsh,
        chainLength_chainSet_le m key v hsh⟩
    · exact ⟨hm, hsh, by omega⟩

theorem chainGet_valid (d : JVal) (k : List Nat) (v : JVal)
    (hd : ValidJ d = true) (h : chainGet d k = some v) : ValidJ v = true := by
  induction d with
  | jobjCons k2 v2 r ihv ihr =>
    simp only [ValidJ, Bool.and_eq_true] at hd
    obtain ⟨⟨⟨⟨⟨_, hvv⟩, hvr⟩, _⟩, _⟩, _⟩ := hd
    simp only [chainGet] at h
    split at h
    · cases h
      exact hvv
    · exact ihr hvr h
  | jstr s => simp [chainGet] at h
  | jobjNil => simp [chainGet] at h
  | jarrNil => simp [chainGet] at h
  | jarrCons a b _ _ => simp [chainGet] at h

theorem chainGet_chainSet_self (d : JVal) (k : List Nat) (v : JVal)
    (hd : ValidJ d = true) (hsh : isObjShape d = true) :
    chainGet (chainSet d k v) k = some v := by
  induction d with
  | jobjNil => simp [chainSet, chainGet]
  | jobjCons k2 v2 r _ ihr =>
    simp only [ValidJ, Bool.and_eq_true] at hd
    obtain ⟨⟨⟨⟨⟨_, _⟩, hvr⟩, hshr⟩, _⟩, _⟩ := hd
    simp only [chainSet]
    split
    · rename_i heq
      simp [chainGet, heq]
    · rename_i hne
      simp only [chainGet, if_neg hne]
      exact ihr hvr hshr
  | jstr s => simp [isObjShape] at hsh
  | jarrNil => simp [isObjShape] at hsh
  | jarrCons a b _ _ => simp [isObjShape] at hsh

theorem chainGet_chainSet_other (d : JVal) (k k2 : List Nat) (v : JVal)
    (h : k ≠ k2) : chainGet (chainSet d k v) k2 = chainGet d k2 := by
  induction d with
  | jobjNil => simp [chainSet, chainGet, h]
  | jobjCons k3 v3 r _ ihr =>
    simp only [chainSet]
    split
    · rename_i heq
      subst heq
      simp [chainGet, h]
    · simp only [chainGet, ihr]
  | jstr s => simp [chainSet]
  | jarrNil => simp [chainSet]
  | jarrCons a b _ _ => simp [chainSet]

theorem chainGet_none_of_not_shape (d : JVal) (k : List Nat)
    (hd : isObjShape d = false) : chainGet d k = none := by
  cases d <;> simp_all [chainGet, isObjShape]

theorem chainHasKey_chainFilterStd (d : JVal) (k : List Nat)
    (h : chainHasKey d k = false) : chainHasKey (chainFilterStd d) k = false := by
  induction d with
  | jobjCons k2 v2 r _ ihr =>
    simp only [chainHasKey, Bool.or_eq_false_iff] at h
    simp only [chainFilterStd]
    split
    · exact ihr h.2
    · simp only [chainHasKey, Bool.or_eq_false_iff]
      exact ⟨h.1, ihr h.2⟩
  | jstr s => simp [chainFilterStd, chainHasKey]
  | jobjNil => simp [chainFilterStd, chainHasKey]
  | jarrNil => simp [chainFilterStd, chainHasKey]
  | jarrCons a b _ _ => simp [chainFilterStd, chainHasKey]

theorem chainLength_chainFilterStd_le (d : JVal) :
    chainLength (chainFilterStd d) ≤ chainLength d := by
  induction d with
  | jobjCons k2 v2 r _ ihr =>
    simp only [chainFilterStd]
    split
    · simp only [chainLength]
      omega
    · simp only [chainLength]
      omega
  | jstr s => simp [chainFilterStd]
  | jobjNil => simp [chainFilterStd]
  | jarrNil => simp [chainFilterStd]
  | jarrCons a b _ _ => simp [chainFilterStd]

theorem chainFilterStd_valid (d : JVal) (hd : ValidJ d = true)
    (hsh : isObjShape d = true) :
    ValidJ (chainFilterStd d) = true ∧ isObjShape (chainFilterStd d) = true := by
  induction d with
  | jobjNil => simp [chainFilterStd, ValidJ, isObjShape]
  | jobjCons k2 v2 r _ ihr =>
    simp only [ValidJ, Bool.and_eq_true, Bool.not_eq_true',
      decide_eq_true_eq] at hd
    obtain ⟨⟨⟨⟨⟨hk2, hvv⟩, hvr⟩, hshr⟩, hnok⟩, hln⟩ := hd
    obtain ⟨h1, h2⟩ := ihr hvr hshr
    simp only [chainFilterStd]
    split
    · exact ⟨h1, h2⟩
    · refine ⟨ValidJ_cons k2 v2 _ hk2 hvv h1 h2
        (chainHasKey_chainFilterStd r k2 hnok) ?_, by simp [isObjShape]⟩
      have := chainLength_chainFilterStd_le r
      omega
  | jstr s => simp [isObjShape] at hsh
  | jarrNil => simp [isObjShape] at hsh
  | jarrCons a b _ _ => simp [isObjShape] at hsh

theorem chainGet_isSome_of_hasKey (d : JVal) (k : List Nat)
    (h : chainHasKey d k = true) : ∃ v, chainGet d k = some v := by
  induction d with
  | jobjCons k2 v2 r _ ihr =>
    simp only [chainHasKey, Bool.or_eq_true, decide_eq_true_eq] at h
    simp only [chainGet]
    split
    · exact ⟨v2, rfl⟩
    · rename_i hne
      rcases h with h | h
      · exact absurd h hne
      · exact ihr h
  | jstr s => simp [chainHasKey] at h
  | jobjNil => simp [chainHasKey] at h
  | jarrNil => simp [chainHasKey] at h
  | jarrCons a b _ _ => simp [chainHasKey] at h

theorem setOptStr_get_other (m : JVal) (key key2 : List Nat)
    (o : Option (List Nat)) (h : key ≠ key2) :
    chainGet (setOptStr m key o) key2 = chainGet m key2 := by
  cases o with
  | none => rfl
  | some s =>
    simp only [setOptStr]
    split
    · exact chainGet_chainSet_other m key key2 (.jstr s) h
    · rfl

theorem setOptTruthy_get_other (m : JVal) (key key2 : List Nat)
    (o : Option JVal) (h : key ≠ key2) :
    chainGet (setOptTruthy m key o) key2 = chainGet m key2 := by
  cases o with
  | none => rfl
  | some v =>
    simp only [setOptTruthy]
    split
    · exact chainGet_chainSet_other m key key2 v h
    · rfl

theorem buildBasicPayload_valid (sid iso : List Nat)
    (mid gid : Option (List Nat)) (cm : Option JVal)
    (hsid : SafeStr sid = true) (hiso : SafeStr iso = true)
    (hmid : SafeOptStr mid = true) (hgid : SafeOptStr gid = true)
    (hcm : ValidOptObj cm = true) :
    ValidJ (buildBasicPayload sid iso mid gid cm) = true ∧
    isObjShape (buildBasicPayload sid iso mid gid cm) = true := by
  have hf : ValidJ (JVal.jobjCons (S "format") (.jstr (S "basic")) .jobjNil) = true := by
    decide
  have hmidc : ValidJ (JVal.jobjCons (S "timestamp") (.jstr iso)
      (.jobjCons (S "format") (.jstr (S "basic")) .jobjNil)) = true := by
    refine ValidJ_cons _ _ _ (by decide) (ValidJ_jstr iso hiso) hf (by decide) ?_ ?_
    · decide
    · decide
  have h0 : ValidJ (JVal.jobjCons (S "signer_id") (.jstr sid)
      (.jobjCons (S "timestamp") (.jstr iso)
        (.jobjCons (S "format") (.jstr (S "basic")) .jobjNil))) = true := by
    refine ValidJ_cons _ _ _ (by decide) (ValidJ_jstr sid hsid) hmidc rfl ?_ ?_
    · simp only [chainHasKey]
      decide
    · simp only [chainLength]
      decide
  have h0l : chainLength (JVal.jobjCons (S "signer_id") (.jstr sid)
      (.jobjCons (S "timestamp") (.jstr iso)
        (.jobjCons (S "format") (.jstr (S "basic")) .jobjNil))) = 3 := rfl
  obtain ⟨h1v, h1s, h1l⟩ := setOptStr_valid _ (S "model_id") mid h0 rfl (by decide)
    hmid (by omega)
  obtain ⟨h2v, h2s, h2l⟩ := setOptStr_valid _ (S "generationID") gid h1v h1s
    (by decide) hgid (by omega)
  unfold buildBasicPayload
  cases cm with
  | none => exact ⟨h2v, h2s⟩
  | some c =>
    simp only [ValidOptObj, Bool.and_eq_true, decide_eq_true_eq] at hcm
    obtain ⟨⟨hcv, hcs⟩, _⟩ := hcm
    simp only
    split
    · split
      · obtain ⟨h3v, h3s⟩ := chainFilterStd_valid c hcv hcs
        exact ⟨ValidJ_chainSet _ _ _ h2v h2s (by decide) h3v (by omega),
          isObjShape_chainSet _ _ _ h2s⟩
      · exact ⟨ValidJ_chainSet _ _ _ h2v h2s (by decide) hcv (by omega),
          isObjShape_chainSet _ _ _ h2s⟩
    · exact ⟨h2v, h2s⟩

theorem mergeModelId_valid (m : JVal) (mid : Option (List Nat))
    (hm : ValidJ m = true) (hs : isObjShape m = true)
    (hl : chainLength m + 3 ≤ 65536) (hmid : SafeOptStr mid = true)
    (hai : chainGet m (S "ai_info") = none ∨
      ∃ a, chainGet m (S "ai_info") = some a ∧ isObjShape a = true ∧
        chainLength a + 2 ≤ 65536) :
    ValidJ (mergeModelId m mid) = true ∧ isObjShape (mergeModelId m mid) = true := by
  cases mid with
  | none => exact ⟨hm, hs⟩
  | some s =>
    simp only [mergeModelId]
    split
    · cases hk : chainHasKey m (S "ai_info") with
      | true =>
        obtain ⟨a, hga⟩ := chainGet_isSome_of_hasKey m (S "ai_info") hk
        rcases hai with h | ⟨a2, hga2, has, hal⟩
        · rw [hga] at h
          cases h
        · rw [hga] at hga2
          cases hga2
          simp only [hk, if_true, hga, Option.getD_some]
          have hav : ValidJ a = true := chainGet_valid m _ a hm hga
          have hnew : ValidJ (chainSet a (S "model_id") (.jstr s)) = true :=
            ValidJ_chainSet a _ _ hav has (by decide) (ValidJ_jstr s hmid)
              (by omega)
          exact ⟨ValidJ_chainSet m _ _ hm hs (by decide) hnew (by omega),
            isObjShape_chainSet m _ _ hs⟩
      | false =>
        simp only [hk, Bool.false_eq_true, if_false]
        have h2v : ValidJ (chainSet m (S "ai_info") .jobjNil) = true :=
          ValidJ_chainSet m _ _ hm hs (by decide) rfl (by omega)
        have h2s : isObjShape (chainSet m (S "ai_info") .jobjNil) = true :=
          isObjShape_chainSet m _ _ hs
        have h2l := chainLength_chainSet_le m (S "ai_info") .jobjNil hs
        rw [chainGet_chainSet_self m (S "ai_info") .jobjNil hm hs]
        simp only [Option.getD_some]
        have hnew : ValidJ (chainSet JVal.jobjNil (S "model_id") (.jstr s)) = true :=
          ValidJ_chainSet _ _ _ rfl rfl (by decide) (ValidJ_jstr s hmid) (by decide)
        exact ⟨ValidJ_chainSet _ _ _ h2v h2s (by decide) hnew (by omega),
          isObjShape_chainSet _ _ _ h2s⟩
    · exact ⟨hm, hs⟩

theorem buildInnerManifest_valid (cg : Option (List Nat))
    (actions ai cc : Option JVal) (mid : Option (List Nat))
    (hcg : SafeOptStr cg = true) (hact : ValidOptJ actions = true)
    (hai : ValidOptObj ai = true) (hcc : ValidOptJ cc = true)
    (hmid : SafeOptStr mid = true) :
    ValidJ (buildInnerManifest cg actions ai cc mid) = true ∧
    isObjShape (buildInnerManifest cg actions ai cc mid) = true := by
  have hai2 : ValidOptJ ai = true := by
    cases ai with
    | none => rfl
    | some a =>
      simp only [ValidOptObj, Bool.and_eq_true] at hai
      exact hai.1.1
  obtain ⟨h1v, h1s, h1l⟩ := setOptStr_valid JVal.jobjNil (S "claim_generator") cg
    rfl rfl (by decide) hcg (by decide)
  obtain ⟨h2v, h2s, h2l⟩ := setOptTruthy_valid _ (S "actions") actions h1v h1s
    (by decide) hact (by simp only [chainLength] at h1l ⊢; omega)
  obtain ⟨h3v, h3s, h3l⟩ := setOptTruthy_valid _ (S "ai_info") ai h2v h2s
    (by decide) hai2 (by simp only [chainLength] at h1l ⊢; omega)
  obtain ⟨h4v, h4s, h4l⟩ := setOptTruthy_valid _ (S "custom_claims") cc h3v h3s
    (by decide) hcc (by simp only [chainLength] at h1l ⊢; omega)
  have hget0 : chainGet (setOptStr JVal.jobjNil (S "claim_generator") cg)
      (S "ai_info") = none := by
    rw [setOptStr_get_other _ _ _ _ (by decide)]
    rfl
  have hget1 : chainGet (setOptTruthy (setOptStr JVal.jobjNil (S "claim_generator") cg)
      (S "actions") actions) (S "ai_info") = none := by
    rw [setOptTruthy_get_other _ _ _ _ (by decide)]
    exact hget0
  have hget3 : chainGet (setOptTruthy (setOptTruthy (setOptStr JVal.jobjNil
      (S "claim_generator") cg) (S "actions") actions) (S "ai_info") ai)
      (S "ai_info") = none ∨
      ∃ a, chainGet (setOptTruthy (setOptTruthy (setOptStr JVal.jobjNil
        (S "claim_generator") cg) (S "actions") actions) (S "ai_info") ai)
        (S "ai_info") = some a ∧ isObjShape a = true ∧
        chainLength a + 2 ≤ 65536 := by
    cases ai with
    | none => exact Or.inl hget1
    | some a =>
      simp only [ValidOptObj, Bool.and_eq_true, decide_eq_true_eq] at hai
      obtain ⟨⟨hav, has⟩, hal⟩ := hai
      simp only [setOptTruthy]
      split
      · exact Or.inr ⟨a, chainGet_chainSet_self _ _ _ h2v h2s, has, hal⟩
      · exact Or.inl hget1
  have hget4 : chainGet (setOptTruthy (setOptTruthy (setOptTruthy (setOptStr
      JVal.jobjNil (S "claim_generator") cg) (S "actions") actions)
      (S "ai_info") ai) (S "custom_claims") cc) (S "ai_info") = none ∨
      ∃ a, chainGet (setOptTruthy (setOptTruthy (setOptTruthy (setOptStr
        JVal.jobjNil (S "claim_generator") cg) (S "actions") actions)
        (S "ai_info") ai) (S "custom_claims") cc) (S "ai_info") = some a ∧
        isObjShape a = true ∧ chainLength a + 2 ≤ 65536 := by
    rw [setOptTruthy_get_other _ _ _ _ (by decide)]
    exact hget3
  unfold buildInnerManifest
  exact mergeModelId_valid _ mid h4v h4s
    (by simp only [chainLength] at h1l ⊢; omega) hmid hget4

theorem buildManifestPayload_valid (sid iso : List Nat) (inner : JVal)
    (hsid : SafeStr sid = true) (hiso : SafeStr iso = true)
    (hinner : ValidJ inner = true) :
    ValidJ (buildManifestPayload sid iso inner) = true ∧
    isObjShape (buildManifestPayload sid iso inner) = true := by
  have hm : ValidJ (JVal.jobjCons (S "manifest") inner .jobjNil) = true :=
    ValidJ_cons _ _ _ (by decide) hinner rfl rfl (by decide) (by decide)
  have hf : ValidJ (JVal.jobjCons (S "format") (.jstr (S "manifest"))
      (.jobjCons (S "manifest") inner .jobjNil)) = true := by
    refine ValidJ_cons _ _ _ (by decide) (by decide) hm rfl ?_ ?_
    · simp only [chainHasKey]
      decide
    · simp only [chainLength]
      decide
  have ht : ValidJ (JVal.jobjCons (S "timestamp") (.jstr iso)
      (.jobjCons (S "format") (.jstr (S "manifest"))
        (.jobjCons (S "manifest") inner .jobjNil))) = true := by
    refine ValidJ_cons _ _ _ (by decide) (ValidJ_jstr iso hiso) hf rfl ?_ ?_
    · simp only [chainHasKey]
      decide
    · simp only [chainLength]
      decide
  refine ⟨?_, rfl⟩
  refine ValidJ_cons _ _ _ (by decide) (ValidJ_jstr sid hsid) ht rfl ?_ ?_
  · simp only [chainHasKey]
    decide
  · simp only [chainLength]
    decide

theorem buildPayload_valid (mf : MetadataFormat) (sid iso : List Nat)
    (mid gid : Option (List Nat)) (cm : Option JVal) (cg : Option (List Nat))
    (actions ai cc : Option JVal)
    (hsid : SafeStr sid = true) (hiso : SafeStr iso = true)
    (hmid : SafeOptStr mid = true) (hgid : SafeOptStr gid = true)
    (hcm : ValidOptObj cm = true) (hcg : SafeOptStr cg = true)
    (hact : ValidOptJ actions = true) (hai : ValidOptObj ai = true)
    (hcc : ValidOptJ cc = true) :
    ValidJ (buildPayload mf sid iso mid gid cm cg actions ai cc) = true ∧
    isObjShape (buildPayload mf sid iso mid gid cm cg actions ai cc) = true := by
  cases mf with
  | basic => exact buildBasicPayload_valid sid iso mid gid cm hsid hiso hmid hgid hcm
  | manifest =>
    obtain ⟨h1, _⟩ := buildInnerManifest_valid cg actions ai cc mid hcg hact hai
      hcc hmid
    exact buildManifestPayload_valid sid iso _ hsid hiso h1

theorem fmtStr_safe (mf : MetadataFormat) : SafeStr (fmtStr mf) = true := by
  cases mf <;> decide

theorem sig_b64_safe (key : Ed25519PrivateKey) (msg : List Nat) :
    SafeStr (rstripEq (b64Encode (sign_payload key msg))) = true := by
  simp only [SafeStr, Bool.and_eq_true, decide_eq_true_eq]
  constructor
  · rw [List.all_eq_true]
    intro x hx
    exact mem_b64Encode_safe _ x (mem_rstripEq x _ hx)
  · have h1 := length_rstripEq_le (b64Encode (sign_payload key msg))
    have h2 := length_b64Encode_le (sign_payload key msg)
    have h3 := sign_payload_length key msg
    omega

theorem buildOuterPayload_valid (payload : JVal) (sig sid fmt : List Nat)
    (hp : ValidJ payload = true) (hsig : SafeStr sig = true)
    (hsid : SafeStr sid = true) (hfmt : SafeStr fmt = true) :
    ValidJ (buildOuterPayload payload sig sid fmt) = true := by
  have h4 : ValidJ (JVal.jobjCons (S "format") (.jstr fmt) .jobjNil) = true :=
    ValidJ_cons _ _ _ (by decide) (ValidJ_jstr fmt hfmt) rfl rfl (by decide)
      (by decide)
  have h3 : ValidJ (JVal.jobjCons (S "signer_id") (.jstr sid)
      (.jobjCons (S "format") (.jstr fmt) .jobjNil)) = true := by
    refine ValidJ_cons _ _ _ (by decide) (ValidJ_jstr sid hsid) h4 rfl ?_ ?_
    · simp only [chainHasKey]
      decide
    · simp only [chainLength]
      decide
  have h2 : ValidJ (JVal.jobjCons (S "signature") (.jstr sig)
      (.jobjCons (S "signer_id") (.jstr sid)
        (.jobjCons (S "format") (.jstr fmt) .jobjNil))) = true := by
    refine ValidJ_cons _ _ _ (by decide) (ValidJ_jstr sig hsig) h3 rfl ?_ ?_
    · simp only [chainHasKey]
      decide
    · simp only [chainLength]
      decide
  refine ValidJ_cons _ _ _ (by decide) hp h2 rfl ?_ ?_
  · simp only [chainHasKey]
    decide
  · simp only [chainLength]
    decide

/-!
## Serialized bytes are bytes
-/

theorem SafeChar_lt_256 (c : Nat) (h : SafeChar c = true) : c < 256 := by
  simp only [SafeChar, Bool.and_eq_true, decide_eq_true_eq] at h
  omega

theorem dumpJ_lt_256 (v : JVal) (hv : ValidJ v = true) :
    (∀ b ∈ dumpJ DumpMode.top v, b < 256) ∧
    (∀ b ∈ dumpJ DumpMode.objTail v, b < 256) ∧
    (∀ b ∈ dumpJ DumpMode.arrTail v, b < 256) := by
  induction v with
  | jstr s =>
    have hs : ∀ c ∈ s, c < 256 := by
      intro c hc
      simp only [ValidJ, SafeStr, Bool.and_eq_true, List.all_eq_true] at hv
      exact SafeChar_lt_256 c (hv.1 c hc)
    refine ⟨?_, ?_, ?_⟩ <;> intro b hb <;>
      simp only [dumpJ, List.mem_cons, List.mem_append, List.mem_singleton] at hb
    · rcases hb with rfl | hb | rfl | h
      · omega
      · exact hs b hb
      · omega
      · simp at h
    · rcases hb with rfl | h
      · omega
      · simp at h
    · rcases hb with rfl | h
      · omega
      · simp at h
  | jobjNil =>
    refine ⟨?_, ?_, ?_⟩ <;> intro b hb <;> simp [dumpJ] at hb <;> omega
  | jobjCons k v r ihv ihr =>
    simp only [ValidJ, Bool.and_eq_true] at hv
    obtain ⟨⟨⟨⟨⟨hk, hvv⟩, hvr⟩, _⟩, _⟩, _⟩ := hv
    have hks : ∀ c ∈ k, c < 256 := by
      intro c hc
      simp only [SafeStr, Bool.and_eq_true, List.all_eq_true] at hk
      exact SafeChar_lt_256 c (hk.1 c hc)
    have h1 := (ihv hvv).1
    have h2 := (ihr hvr).2.1
    have hbody : ∀ b ∈ (k ++ 34 :: 58 :: (dumpJ DumpMode.top v ++
        dumpJ DumpMode.objTail r)), b < 256 := by
      intro b hb
      simp only [List.mem_append, List.mem_cons] at hb
      rcases hb with hb | rfl | rfl | hb | hb
      · exact hks b hb
      · omega
      · omega
      · exact h1 b hb
      · exact h2 b hb
    refine ⟨?_, ?_, ?_⟩ <;> intro b hb <;>
      simp only [dumpJ, List.mem_cons] at hb
    · rcases hb with rfl | rfl | hb
      · omega
      · omega
      · exact hbody b hb
    · rcases hb with rfl | rfl | hb
      · omega
      · omega
      · exact hbody b hb
    · rcases hb with rfl | h
      · omega
      · simp at h
  | jarrNil =>
    refine ⟨?_, ?_, ?_⟩ <;> intro b hb <;> simp [dumpJ] at hb <;> omega
  | jarrCons v r ihv ihr =>
    simp only [ValidJ, Bool.and_eq_true] at hv
    obtain ⟨⟨⟨hvv, hvr⟩, _⟩, _⟩ := hv
    have h1 := (ihv hvv).1
    have h2 := (ihr hvr).2.2
    have hbody : ∀ b ∈ (dumpJ DumpMode.top v ++ dumpJ DumpMode.arrTail r),
        b < 256 := by
      intro b hb
      simp only [List.mem_append] at hb
      rcases hb with hb | hb
      · exact h1 b hb
      · exact h2 b hb
    refine ⟨?_, ?_, ?_⟩ <;> intro b hb <;>
      simp only [dumpJ, List.mem_cons] at hb
    · rcases hb with rfl | hb
      · omega
      · exact hbody b hb
    · rcases hb with rfl | h
      · omega
      · simp at h
    · rcases hb with rfl | hb
      · omega
      · exact hbody b hb

theorem cborHdr_lt_256 (maj n : Nat) (hm : maj ≤ 5) (hn : n < 65536) :
    ∀ b ∈ cborHdr maj n, b < 256 := by
  intro b hb
  unfold cborHdr at hb
  split at hb
  · simp only [List.mem_singleton] at hb
    omega
  · split at hb
    · simp only [List.mem_cons, List.mem_singleton] at hb
      rcases hb with rfl | rfl | h
      · omega
      · omega
      · simp at h
    · simp only [List.mem_cons, List.mem_singleton] at hb
      rcases hb with rfl | rfl | rfl | h
      · omega
      · omega
      · omega
      · simp at h

theorem dumpC_lt_256 (v : JVal) (hv : ValidJ v = true) :
    (∀ b ∈ dumpC DumpMode.top v, b < 256) ∧
    (∀ b ∈ dumpC DumpMode.objTail v, b < 256) ∧
    (∀ b ∈ dumpC DumpMode.arrTail v, b < 256) := by
  induction v with
  | jstr s =>
    have hv2 := hv
    simp only [ValidJ, SafeStr, Bool.and_eq_true, List.all_eq_true,
      decide_eq_true_eq] at hv2
    refine ⟨?_, by intro b hb; simp [dumpC] at hb, by intro b hb; simp [dumpC] at hb⟩
    intro b hb
    simp only [dumpC, List.mem_append] at hb
    rcases hb with hb | hb
    · exact cborHdr_lt_256 3 s.length (by omega) hv2.2 b hb
    · exact SafeChar_lt_256 b (hv2.1 b hb)
  | jobjNil =>
    refine ⟨?_, ?_, ?_⟩ <;> intro b hb <;> simp [dumpC] at hb <;> omega
  | jobjCons k v r ihv ihr =>
    have hv2 := hv
    simp only [ValidJ, Bool.and_eq_true, decide_eq_true_eq] at hv2
    obtain ⟨⟨⟨⟨⟨hk, hvv⟩, hvr⟩, _⟩, _⟩, hln⟩ := hv2
    have hks : ∀ c ∈ k, c < 256 := by
      intro c hc
      simp only [SafeStr, Bool.and_eq_true, List.all_eq_true] at hk
      exact SafeChar_lt_256 c (hk.1 c hc)
    have hklen : k.length < 65536 := by
      simp only [SafeStr, Bool.and_eq_true, decide_eq_true_eq] at hk
      exact hk.2
    have h1 := (ihv hvv).1
    have h2 := (ihr hvr).2.1
    have hbody : ∀ b ∈ (cborHdr 3 k.length ++ k ++ (dumpC DumpMode.top v ++
        dumpC DumpMode.objTail r)), b < 256 := by
      intro b hb
      simp only [List.mem_append] at hb
      rcases hb with (hb | hb) | hb | hb
      · exact cborHdr_lt_256 3 k.length (by omega) hklen b hb
      · exact hks b hb
      · exact h1 b hb
      · exact h2 b hb
    refine ⟨?_, hbody, by intro b hb; simp [dumpC] at hb⟩
    intro b hb
    simp only [dumpC, List.mem_append] at hb
    rcases hb with hb | hb
    · exact cborHdr_lt_256 5 (chainLength r + 1) (by omega) hln b hb
    · refine hbody b ?_
      simp only [List.mem_append] at hb ⊢
      tauto
  | jarrNil =>
    refine ⟨?_, ?_, ?_⟩ <;> intro b hb <;> simp [dumpC] at hb <;> omega
  | jarrCons v r ihv ihr =>
    have hv2 := hv
    simp only [ValidJ, Bool.and_eq_true, decide_eq_true_eq] at hv2
    obtain ⟨⟨⟨hvv, hvr⟩, _⟩, hln⟩ := hv2
    have h1 := (ihv hvv).1
    have h2 := (ihr hvr).2.2
    have hbody : ∀ b ∈ (dumpC DumpMode.top v ++ dumpC DumpMode.arrTail r),
        b < 256 := by
      intro b hb
      simp only [List.mem_append] at hb
      rcases hb with hb | hb
      · exact h1 b hb
      · exact h2 b hb
    refine ⟨?_, by intro b hb; simp [dumpC] at hb, hbody⟩
    intro b hb
    simp only [dumpC, List.mem_append] at hb
    rcases hb with hb | hb
    · exact cborHdr_lt_256 4 (chainLength r + 1) (by omega) hln b hb
    · refine hbody b ?_
      simp only [List.mem_append] at hb ⊢
      tauto

theorem serialize_payload_lt_256 (v : JVal) (sf : SerializationFormat)
    (hv : ValidJ v = true) : ∀ b ∈ serialize_payload v sf, b < 256 := by
  cases sf with
  | json => exact (dumpJ_lt_256 v hv).1
  | cbor => exact (dumpC_lt_256 v hv).1
  | jumbf =>
    intro b hb
    simp only [serialize_payload, List.mem_append] at hb
    rcases hb with hb | hb
    · have : b ∈ [74, 85, 77, 66, 70] := by
        simpa [show S "JUMBF" = [74, 85, 77, 66, 70] from by decide] using hb
      simp only [List.mem_cons, List.mem_singleton] at this
      rcases this with rfl | rfl | rfl | rfl | rfl | h
      · omega
      · omega
      · omega
      · omega
      · omega
      · simp at h
    · exact (dumpJ_lt_256 v hv).1 b hb

theorem dumpJ_obj_head (v : JVal) (hs : isObjShape v = true) :
    ∃ bs, dumpJ DumpMode.top v = 123 :: bs := by
  cases v with
  | jobjNil => exact ⟨[125], rfl⟩
  | jobjCons k x r => exact ⟨_, rfl⟩
  | jstr s => simp [isObjShape] at hs
  | jarrNil => simp [isObjShape] at hs
  | jarrCons a b => simp [isObjShape] at hs

theorem serialize_payload_ne_nil (v : JVal) (sf : SerializationFormat)
    (hs : isObjShape v = true) : serialize_payload v sf ≠ [] := by
  cases sf with
  | json =>
    obtain ⟨bs, h⟩ := dumpJ_obj_head v hs
    simp [serialize_payload, h]
  | cbor =>
    obtain ⟨b, bs, h, _⟩ := dumpC_top_head v (Or.inl hs)
    simp [serialize_payload, h]
  | jumbf =>
    simp [serialize_payload, show S "JUMBF" = [74, 85, 77, 66, 70] from by decide]

/-!
## Round trip of the embedded envelope
-/

theorem extract_bytes_splice (pre B suf : List Nat)
    (hpre : ∀ c ∈ pre, isVS c = false) (hsuf : ∀ c ∈ suf, isVS c = false)
    (hB : ∀ b ∈ B, b < 256) (hBne : B ≠ []) :
    extract_bytes (pre ++ (B.map vsOf ++ suf)) = B := by
  induction pre with
  | nil =>
    unfold extract_bytes
    simp only [List.nil_append]
    rw [extractBytesGo_vs_run B [] suf hB ?_ (fun _ => hBne)]
    · simp
    · cases suf with
      | nil => exact Or.inl rfl
      | cons c t =>
        refine Or.inr ⟨c, t, rfl, ?_⟩
        rw [from_variation_selector_eq_none_iff]
        exact hsuf c (by simp)
  | cons c pre ih =>
    have hc : from_variation_selector c = none := by
      rw [from_variation_selector_eq_none_iff]
      exact hpre c (by simp)
    unfold extract_bytes
    rw [List.cons_append, extractBytesGo_skip [] c _ hc rfl]
    exact ih (fun x hx => hpre x (by simp [hx]))

theorem isPrefixOf_JUMBF_false (b : Nat) (bs : List Nat) (h : ¬ b = 74) :
    (S "JUMBF").isPrefixOf (b :: bs) = false := by
  rw [show S "JUMBF" = [74, 85, 77, 66, 70] from by decide]
  simp only [List.isPrefixOf, Bool.and_eq_false_iff]
  left
  simpa using fun hh => h hh.symm

theorem isPrefixOf_append_self (l x : List Nat) : l.isPrefixOf (l ++ x) = true := by
  induction l with
  | nil => simp [List.isPrefixOf]
  | cons c t ih => simp [List.isPrefixOf, ih]

theorem _deserialize_outer_bytes_json (env : JVal) (hv : ValidJ env = true)
    (hs : isObjShape env = true) :
    _deserialize_outer_bytes (serialize_payload env SerializationFormat.json) =
      some env := by
  obtain ⟨bs, hbs⟩ := dumpJ_obj_head env hs
  unfold _deserialize_outer_bytes serialize_payload
  rw [hbs, isPrefixOf_JUMBF_false 123 bs (by omega)]
  simp only [Bool.false_eq_true, if_false]
  rw [← hbs, jsonLoads_dumpJ env hv]

theorem _deserialize_outer_bytes_cbor (env : JVal) (hv : ValidJ env = true)
    (hs : isObjShape env = true) :
    _deserialize_outer_bytes (serialize_payload env SerializationFormat.cbor) =
      some env := by
  obtain ⟨b, bs, hbs, hb⟩ := dumpC_top_head env (Or.inl hs)
  unfold _deserialize_outer_bytes serialize_payload
  rw [hbs, isPrefixOf_JUMBF_false b bs (by omega)]
  simp only [Bool.false_eq_true, if_false]
  rw [jsonLoads_high_head b bs hb]
  rw [← hbs, cborLoads_dumpC env hv]

theorem _deserialize_outer_bytes_jumbf (env : JVal) (hv : ValidJ env = true) :
    _deserialize_outer_bytes (serialize_payload env SerializationFormat.jumbf) =
      some env := by
  unfold _deserialize_outer_bytes serialize_payload
  rw [isPrefixOf_append_self]
  simp only [if_true]
  rw [show ((S "JUMBF" ++ dumpJ DumpMode.top env).drop 5) = dumpJ DumpMode.top env
    from by rw [show (5 : Nat) = (S "JUMBF").length from by decide, List.drop_left]]
  exact jsonLoads_dumpJ env hv

theorem _deserialize_outer_bytes_serialize (env : JVal) (sf : SerializationFormat)
    (hv : ValidJ env = true) (hs : isObjShape env = true) :
    _deserialize_outer_bytes (serialize_payload env sf) = some env := by
  cases sf with
  | json => exact _deserialize_outer_bytes_json env hv hs
  | cbor => exact _deserialize_outer_bytes_cbor env hv hs
  | jumbf => exact _deserialize_outer_bytes_jumbf env hv

theorem chainGet_buildOuterPayload (payload : JVal) (sig sid fmt : List Nat) :
    chainGet (buildOuterPayload payload sig sid fmt) (S "payload") = some payload ∧
    chainGet (buildOuterPayload payload sig sid fmt) (S "signature") =
      some (.jstr sig) ∧
    chainGet (buildOuterPayload payload sig sid fmt) (S "signer_id") =
      some (.jstr sid) ∧
    chainGet (buildOuterPayload payload sig sid fmt) (S "format") =
      some (.jstr fmt) := by
  refine ⟨?_, ?_, ?_, ?_⟩ <;>
    simp only [buildOuterPayload, chainGet] <;>
    norm_num [show (S "payload" = S "signature") = False from by decide,
      show (S "payload" = S "signer_id") = False from by decide,
      show (S "payload" = S "format") = False from by decide,
      show (S "signature" = S "signer_id") = False from by decide,
      show (S "signature" = S "format") = False from by decide,
      show (S "signer_id" = S "format") = False from by decide]

theorem _extract_outer_payload_embedded (pre suf : List Nat) (payload : JVal)
    (sig sid fmt : List Nat) (sf : SerializationFormat)
    (hpre : ∀ c ∈ pre, isVS c = false) (hsuf : ∀ c ∈ suf, isVS c = false)
    (hval : ValidJ (buildOuterPayload payload sig sid fmt) = true) :
    _extract_outer_payload (pre ++
      ((serialize_payload (buildOuterPayload payload sig sid fmt) sf).map vsOf ++
        suf)) =
      some ⟨payload, .jstr sig, .jstr sid, .jstr fmt⟩ := by
  have hshape : isObjShape (buildOuterPayload payload sig sid fmt) = true := rfl
  have hbytes := serialize_payload_lt_256 _ sf hval
  have hne := serialize_payload_ne_nil (buildOuterPayload payload sig sid fmt)
    sf hshape
  have hextract := extract_bytes_splice pre
    (serialize_payload (buildOuterPayload payload sig sid fmt) sf) suf
    hpre hsuf hbytes hne
  unfold _extract_outer_payload
  rw [hextract]
  rw [if_neg hne]
  rw [_deserialize_outer_bytes_serialize _ sf hval hshape]
  obtain ⟨h1, h2, h3, h4⟩ := chainGet_buildOuterPayload payload sig sid fmt
  simp only [hshape, if_true, h1, h2, h3, h4]

theorem isObjShape_buildOuterPayload (p : JVal) (s i f : List Nat) :
    isObjShape (buildOuterPayload p s i f) = true := rfl

theorem verify_embedded_success (pre suf : List Nat) (payload : JVal)
    (seed : Nat) (sid fmt : List Nat) (sf : SerializationFormat)
    (onFail : Bool)
    (hpre : ∀ c ∈ pre, isVS c = false) (hsuf : ∀ c ∈ suf, isVS c = false)
    (hval : ValidJ (buildOuterPayload payload
      (rstripEq (b64Encode (sign_payload ⟨seed⟩
        (serialize_payload payload SerializationFormat.json)))) sid fmt) = true) :
    verify_and_extract_metadata (pre ++
      ((serialize_payload (buildOuterPayload payload
        (rstripEq (b64Encode (sign_payload ⟨seed⟩
          (serialize_payload payload SerializationFormat.json)))) sid fmt)
        sf).map vsOf ++ suf))
      (fun _ => ResolverResult.returns (some (PublicKey.ed25519 seed))) onFail =
      (some payload, true, some (.jstr sid)) := by
  unfold verify_and_extract_metadata
  rw [_extract_outer_payload_embedded pre suf payload _ sid fmt sf hpre hsuf hval]
  dsimp only
  rw [if_neg (by simp [isAsymmetricKey])]
  rw [b64_roundtrip _ (sign_payload_lt _ _)]
  dsimp only [verify_signature]
  rw [decide_eq_true rfl]

theorem embed_metadata_single_ok (text : List Nat) (seed : Nat)
    (signer_id : List Nat) (mf : MetadataFormat) (sf : SerializationFormat)
    (model_id : Option (List Nat)) (ts : TsInput) (generationID : Option (List Nat))
    (target : Option MetadataTarget) (custom_metadata : Option JVal)
    (claim_generator : Option (List Nat)) (actions ai_info custom_claims : Option JVal)
    (iso : List Nat) (i : Nat) (restIdx : List Nat)
    (hsid : signer_id ≠ [])
    (hts : _format_timestamp (some ts) = .ok (some iso))
    (htargets : find_targets text (target.getD MetadataTarget.whitespace) =
      i :: restIdx)
    (hval : ValidJ (buildOuterPayload
      (buildPayload mf signer_id iso model_id generationID custom_metadata
        claim_generator actions ai_info custom_claims)
      (rstripEq (b64Encode (sign_payload ⟨seed⟩
        (serialize_payload (buildPayload mf signer_id iso model_id generationID
          custom_metadata claim_generator actions ai_info custom_claims)
          SerializationFormat.json))))
      signer_id (fmtStr mf)) = true) :
    embed_metadata text ⟨seed⟩ signer_id mf sf model_id (some ts) generationID
      target custom_metadata claim_generator actions ai_info custom_claims
      false =
      .ok (text.take (i + 1) ++
        ((serialize_payload (buildOuterPayload
          (buildPayload mf signer_id iso model_id generationID custom_metadata
            claim_generator actions ai_info custom_claims)
          (rstripEq (b64Encode (sign_payload ⟨seed⟩
            (serialize_payload (buildPayload mf signer_id iso model_id
              generationID custom_metadata claim_generator actions ai_info
              custom_claims) SerializationFormat.json))))
          signer_id (fmtStr mf)) sf).map vsOf) ++
        text.drop (i + 1)) := by
  have hbytes := serialize_payload_lt_256 _ sf hval
  have hne := serialize_payload_ne_nil _ sf
    (isObjShape_buildOuterPayload (buildPayload mf signer_id iso model_id
      generationID custom_metadata claim_generator actions ai_info custom_claims)
      (rstripEq (b64Encode (sign_payload ⟨seed⟩
        (serialize_payload (buildPayload mf signer_id iso model_id generationID
          custom_metadata claim_generator actions ai_info custom_claims)
          SerializationFormat.json))))
      signer_id (fmtStr mf))
  unfold embed_metadata
  rw [if_neg hsid]
  dsimp only
  rw [hts]
  dsimp only
  rw [bytes_to_variation_selectors_of_lt _ hbytes]
  dsimp only
  rw [if_neg (by simpa using hne)]
  rw [htargets]
  dsimp only
  rw [if_neg (by simp)]

theorem SafeStr_of_matchesPattern (s : List Nat) (h : matchesPattern s = true) :
    SafeStr s = true := by
  unfold matchesPattern at h
  split at h
  · rename_i y1 y2 y3 y4 m1 m2 d1 d2 h1 h2 n1 n2 s1 s2
    simp only [isDigit, Bool.and_eq_true, decide_eq_true_eq] at h
    simp only [SafeStr, List.all_cons, List.all_nil, SafeChar, Bool.and_eq_true,
      decide_eq_true_eq, List.length_cons, List.length_nil]
    repeat' apply And.intro
    all_goals first | omega | trivial
  · exact absurd h (by simp)

/-- C1 (amended): for every valid payload (valid signer id, timestamp,
and format-specific fields), every Ed25519 key, every host text free of
variation selectors with at least one anchor matching the chosen target
policy, both metadata formats and all three serialization formats, with
`distribute_across_targets = false`, verifying the embedded text against
a resolver returning the matching public key yields exactly
`(payload, true, signer_id)` with the timestamp in canonical ISO form.
(As stated, with `distribute_across_targets = true` included, the claim
fails: distributed embeddings never verify, see the counterexample.) -/
theorem C1_round_trip (text : List Nat) (seed : Nat) (signer_id : List Nat)
    (mf : MetadataFormat) (sf : SerializationFormat)
    (model_id generationID claim_generator : Option (List Nat)) (ts : TsInput)
    (target : Option MetadataTarget)
    (custom_metadata actions ai_info custom_claims : Option JVal)
    (iso : List Nat) (onFail : Bool)
    (hsid : SafeStr signer_id = true) (hsidne : signer_id ≠ [])
    (hmid : SafeOptStr model_id = true) (hgid : SafeOptStr generationID = true)
    (hcg : SafeOptStr claim_generator = true)
    (hcm : ValidOptObj custom_metadata = true) (hact : ValidOptJ actions = true)
    (hai : ValidOptObj ai_info = true) (hcc : ValidOptJ custom_claims = true)
    (hts : _format_timestamp (some ts) = .ok (some iso))
    (htext : ∀ c ∈ text, isVS c = false)
    (htargets : find_targets text (target.getD MetadataTarget.whitespace) ≠ []) :
    ∃ out,
      embed_metadata text ⟨seed⟩ signer_id mf sf model_id (some ts) generationID
        target custom_metadata claim_generator actions ai_info custom_claims
        false = .ok out ∧
      verify_metadata out
        (fun _ => ResolverResult.returns (some (PublicKey.ed25519 seed)))
        onFail =
        (some (buildPayload mf signer_id iso model_id generationID
          custom_metadata claim_generator actions ai_info custom_claims), true,
          some (.jstr signer_id)) := by
  obtain ⟨i, restIdx, hidx⟩ : ∃ i restIdx,
      find_targets text (target.getD MetadataTarget.whitespace) = i :: restIdx := by
    cases h : find_targets text (target.getD MetadataTarget.whitespace) with
    | nil => exact absurd h htargets
    | cons a b => exact ⟨a, b, rfl⟩
  have hiso : SafeStr iso = true :=
    _format_timestamp_safe ts iso hts
  obtain ⟨hpv, _⟩ := buildPayload_valid mf signer_id iso model_id generationID
    custom_metadata claim_generator actions ai_info custom_claims hsid hiso hmid
    hgid hcm hcg hact hai hcc
  have hval := buildOuterPayload_valid
    (buildPayload mf signer_id iso model_id generationID custom_metadata
      claim_generator actions ai_info custom_claims)
    (rstripEq (b64Encode (sign_payload ⟨seed⟩
      (serialize_payload (buildPayload mf signer_id iso model_id generationID
        custom_metadata claim_generator actions ai_info custom_claims)
        SerializationFormat.json))))
    signer_id (fmtStr mf) hpv (sig_b64_safe _ _) hsid (fmtStr_safe mf)
  have hembed := embed_metadata_single_ok text seed signer_id mf sf model_id ts
    generationID target custom_metadata claim_generator actions ai_info
    custom_claims iso i restIdx hsidne hts hidx hval
  refine ⟨_, hembed, ?_⟩
  have hpre : ∀ c ∈ text.take (i + 1), isVS c = false :=
    fun c hc => htext c (List.take_subset _ _ hc)
  have hsuf : ∀ c ∈ text.drop (i + 1), isVS c = false :=
    fun c hc => htext c (List.drop_subset _ _ hc)
  have hverify := verify_embedded_success (text.take (i + 1)) (text.drop (i + 1))
    (buildPayload mf signer_id iso model_id generationID custom_metadata
      claim_generator actions ai_info custom_claims)
    seed signer_id (fmtStr mf) sf onFail hpre hsuf hval
  have hnonempty : text.take (i + 1) ++
      ((serialize_payload (buildOuterPayload
        (buildPayload mf signer_id iso model_id generationID custom_metadata
          claim_generator actions ai_info custom_claims)
        (rstripEq (b64Encode (sign_payload ⟨seed⟩
          (serialize_payload (buildPayload mf signer_id iso model_id
            generationID custom_metadata claim_generator actions ai_info
            custom_claims) SerializationFormat.json))))
        signer_id (fmtStr mf)) sf).map vsOf) ++ text.drop (i + 1) ≠ [] := by
    intro h
    have hne := serialize_payload_ne_nil (buildOuterPayload
      (buildPayload mf signer_id iso model_id generationID custom_metadata
        claim_generator actions ai_info custom_claims)
      (rstripEq (b64Encode (sign_payload ⟨seed⟩
        (serialize_payload (buildPayload mf signer_id iso model_id generationID
          custom_metadata claim_generator actions ai_info custom_claims)
          SerializationFormat.json))))
      signer_id (fmtStr mf)) sf (isObjShape_buildOuterPayload _ _ _ _)
    simp only [List.append_eq_nil, List.map_eq_nil_iff] at h
    exact hne h.1.2
  unfold verify_metadata
  rw [if_neg hnonempty]
  rw [List.append_assoc]
  exact hverify

/-!
## Claims
-/

/-- C2: For every byte `b < 16`, `to_variation_selector b` is the code
point `0xFE00 + b`; for `16 ≤ b < 256` it is `0xE0100 + (b - 16)`; for
every byte in `0..=255` the codec round-trips through
`from_variation_selector`; and `from_variation_selector` is `none` on
every code point outside the two variation-selector ranges. -/
theorem C2_vs_codec :
    (∀ b : Nat, b < 16 → to_variation_selector b = some (0xFE00 + b)) ∧
    (∀ b : Nat, 16 ≤ b → b < 256 →
      to_variation_selector b = some (0xE0100 + (b - 16))) ∧
    (∀ b : Nat, b < 256 →
      from_variation_selector ((to_variation_selector b).getD 0) = some b) ∧
    (∀ cp : Nat, isVS cp = false → from_variation_selector cp = none) := by
  refine ⟨?_, ?_, ?_, ?_⟩
  · intro b hb
    rw [to_variation_selector_lt b (by omega)]
    unfold vsOf VARIATION_SELECTOR_START
    rw [if_pos hb]
  · intro b hb1 hb2
    rw [to_variation_selector_lt b hb2]
    unfold vsOf VARIATION_SELECTOR_SUPPLEMENT_START
    rw [if_neg (by omega)]
    congr 1
    omega
  · intro b hb
    rw [to_variation_selector_lt b hb]
    exact from_variation_selector_vsOf b hb
  · intro cp hcp
    rw [from_variation_selector_eq_none_iff]
    exact hcp

/-- Witness for C2 at concrete inputs. -/
theorem C2_vs_codec_witness :
    to_variation_selector 5 = some 0xFE05 ∧
    to_variation_selector 200 = some (0xE0100 + 184) ∧
    from_variation_selector ((to_variation_selector 77).getD 0) = some 77 ∧
    from_variation_selector 65 = none :=
  ⟨C2_vs_codec.1 5 (by decide), C2_vs_codec.2.1 200 (by decide) (by decide),
    C2_vs_codec.2.2.1 77 (by decide), C2_vs_codec.2.2.2 65 (by decide)⟩

theorem filterMap_to_vs_length (B : List Nat)
    (h : (List.filterMap id (B.map to_variation_selector)).length = B.length) :
    ∀ b ∈ B, b < 256 := by
  induction B with
  | nil =>
    intro b hb
    simp at hb
  | cons x B ih =>
    intro b hb
    have hle := List.length_filterMap_le id (B.map to_variation_selector)
    simp only [List.length_map] at hle
    simp only [List.map_cons, List.filterMap_cons, id, List.length_cons] at h
    cases hx : to_variation_selector x with
    | none =>
      simp only [hx] at h
      omega
    | some y =>
      simp only [hx, List.length_cons] at h
      rcases List.mem_cons.mp hb with rfl | hb2
      · by_contra hge
        unfold to_variation_selector at hx
        rw [if_neg (by omega), if_neg (by omega)] at hx
        cases hx
      · exact ih (by omega) b hb2

theorem bytes_to_variation_selectors_some (B sels : List Nat)
    (h : bytes_to_variation_selectors B = some sels) :
    (∀ b ∈ B, b < 256) ∧ sels = B.map vsOf := by
  have hlt : ∀ b ∈ B, b < 256 := by
    simp only [bytes_to_variation_selectors] at h
    split at h
    · rename_i hlen
      exact filterMap_to_vs_length B hlen
    · cases h
  refine ⟨hlt, ?_⟩
  rw [bytes_to_variation_selectors_of_lt B hlt] at h
  cases h
  rfl

/-- C3: `extract_bytes` skips non-variation-selector code points before
collection starts, collects one byte per selector, stops at the first
non-selector after collection began, and therefore recovers `B` from a
non-selector anchor followed by the selectors that
`_bytes_to_variation_selectors` produces for `B`. -/
theorem C3_extract_bytes_spec :
    (∀ c rest, from_variation_selector c = none →
      extract_bytes (c :: rest) = extract_bytes rest) ∧
    (∀ X B sels, isVS X = false → B ≠ [] →
      bytes_to_variation_selectors B = some sels →
      extract_bytes (X :: sels) = B) ∧
    (∀ X B sels c rest, isVS X = false → B ≠ [] →
      bytes_to_variation_selectors B = some sels → isVS c = false →
      extract_bytes (X :: (sels ++ c :: rest)) = B) := by
  refine ⟨?_, ?_, ?_⟩
  · intro c rest hc
    unfold extract_bytes
    exact extractBytesGo_skip [] c rest hc rfl
  · intro X B sels hX hB hsels
    obtain ⟨hlt, rfl⟩ := bytes_to_variation_selectors_some B sels hsels
    have hXn : from_variation_selector X = none := by
      rw [from_variation_selector_eq_none_iff]
      exact hX
    unfold extract_bytes
    rw [extractBytesGo_skip [] X _ hXn rfl]
    have := extractBytesGo_vs_run B [] [] hlt (Or.inl rfl) (fun _ => hB)
    simpa using this
  · intro X B sels c rest hX hB hsels hc
    obtain ⟨hlt, rfl⟩ := bytes_to_variation_selectors_some B sels hsels
    have hXn : from_variation_selector X = none := by
      rw [from_variation_selector_eq_none_iff]
      exact hX
    have hcn : from_variation_selector c = none := by
      rw [from_variation_selector_eq_none_iff]
      exact hc
    unfold extract_bytes
    rw [extractBytesGo_skip [] X _ hXn rfl]
    have := extractBytesGo_vs_run B [] (c :: rest) hlt
      (Or.inr ⟨c, rest, rfl, hcn⟩) (fun _ => hB)
    simpa using this

/-- Witness for C3 at a concrete anchor and byte string. -/
theorem C3_extract_bytes_spec_witness :
    extract_bytes (120 :: [3, 200]) = extract_bytes [3, 200] ∧
    extract_bytes (88 :: [0xFE03, 0xE01B8]) = [3, 200] ∧
    extract_bytes (88 :: ([0xFE03, 0xE01B8] ++ 89 :: [0xFE01])) = [3, 200] :=
  ⟨C3_extract_bytes_spec.1 120 [3, 200] (by decide),
    C3_extract_bytes_spec.2.1 88 [3, 200] [0xFE03, 0xE01B8] (by decide)
      (by decide) (by decide),
    C3_extract_bytes_spec.2.2 88 [3, 200] [0xFE03, 0xE01B8] 89 [0xFE01]
      (by decide) (by decide) (by decide) (by decide)⟩

/-- C10: On the empty string, `verify_metadata` returns
`(none, false, none)` without consulting the key resolver (the result is
the same for every resolver) and without raising. -/
theorem C10_verify_metadata_empty :
    ∀ (resolver : JVal → ResolverResult) (onFail : Bool),
      verify_metadata [] resolver onFail = (none, false, none) :=
  fun _ _ => rfl

theorem chainGet_buildBasicPayload_std (sid iso : List Nat)
    (mid gid : Option (List Nat)) (cm : Option JVal) :
    chainGet (buildBasicPayload sid iso mid gid cm) (S "signer_id") =
      some (.jstr sid) ∧
    chainGet (buildBasicPayload sid iso mid gid cm) (S "format") =
      some (.jstr (S "basic")) := by
  have hbase1 : chainGet (JVal.jobjCons (S "signer_id") (.jstr sid)
      (.jobjCons (S "timestamp") (.jstr iso)
        (.jobjCons (S "format") (.jstr (S "basic")) .jobjNil))) (S "signer_id") =
      some (.jstr sid) := by
    simp [chainGet]
  have hbase2 : chainGet (JVal.jobjCons (S "signer_id") (.jstr sid)
      (.jobjCons (S "timestamp") (.jstr iso)
        (.jobjCons (S "format") (.jstr (S "basic")) .jobjNil))) (S "format") =
      some (.jstr (S "basic")) := by
    simp only [chainGet]
    rw [if_neg (by decide), if_neg (by decide)]
    simp
  have h1a := setOptStr_get_other (JVal.jobjCons (S "signer_id") (.jstr sid)
      (.jobjCons (S "timestamp") (.jstr iso)
        (.jobjCons (S "format") (.jstr (S "basic")) .jobjNil)))
    (S "model_id") (S "signer_id") mid (by decide)
  have h1b := setOptStr_get_other (JVal.jobjCons (S "signer_id") (.jstr sid)
      (.jobjCons (S "timestamp") (.jstr iso)
        (.jobjCons (S "format") (.jstr (S "basic")) .jobjNil)))
    (S "model_id") (S "format") mid (by decide)
  have h2a := setOptStr_get_other (setOptStr (JVal.jobjCons (S "signer_id")
      (.jstr sid) (.jobjCons (S "timestamp") (.jstr iso)
        (.jobjCons (S "format") (.jstr (S "basic")) .jobjNil)))
      (S "model_id") mid) (S "generationID") (S "signer_id") gid (by decide)
  have h2b := setOptStr_get_other (setOptStr (JVal.jobjCons (S "signer_id")
      (.jstr sid) (.jobjCons (S "timestamp") (.jstr iso)
        (.jobjCons (S "format") (.jstr (S "basic")) .jobjNil)))
      (S "model_id") mid) (S "generationID") (S "format") gid (by decide)
  unfold buildBasicPayload
  cases cm with
  | none =>
    constructor
    · rw [h2a, h1a, hbase1]
    · rw [h2b, h1b, hbase2]
  | some c =>
    simp only
    split
    · split
      · rw [chainGet_chainSet_other _ _ _ _ (by decide),
          chainGet_chainSet_other _ _ _ _ (by decide)]
        constructor
        · rw [h2a, h1a, hbase1]
        · rw [h2b, h1b, hbase2]
      · rw [chainGet_chainSet_other _ _ _ _ (by decide),
          chainGet_chainSet_other _ _ _ _ (by decide)]
        constructor
        · rw [h2a, h1a, hbase1]
        · rw [h2b, h1b, hbase2]
    · constructor
      · rw [h2a, h1a, hbase1]
      · rw [h2b, h1b, hbase2]

theorem chainGet_buildManifestPayload_std (sid iso : List Nat) (inner : JVal) :
    chainGet (buildManifestPayload sid iso inner) (S "signer_id") =
      some (.jstr sid) ∧
    chainGet (buildManifestPayload sid iso inner) (S "format") =
      some (.jstr (S "manifest")) := by
  constructor
  · simp [buildManifestPayload, chainGet]
  · simp only [buildManifestPayload, chainGet]
    rw [if_neg (by decide), if_neg (by decide)]
    simp

/-- C9: The outer envelope built by `embed_metadata` stores, at top
level, the same `signer_id` and `format` that its `payload` entry holds
inside, for both metadata formats. -/
theorem C9_envelope_consistency (mf : MetadataFormat) (sid iso : List Nat)
    (mid gid : Option (List Nat)) (cm : Option JVal) (cg : Option (List Nat))
    (actions ai cc : Option JVal) (sig : List Nat) :
    chainGet (buildOuterPayload
      (buildPayload mf sid iso mid gid cm cg actions ai cc) sig sid (fmtStr mf))
      (S "payload") = some (buildPayload mf sid iso mid gid cm cg actions ai cc) ∧
    chainGet (buildOuterPayload
      (buildPayload mf sid iso mid gid cm cg actions ai cc) sig sid (fmtStr mf))
      (S "signer_id") = some (.jstr sid) ∧
    chainGet (buildPayload mf sid iso mid gid cm cg actions ai cc)
      (S "signer_id") = some (.jstr sid) ∧
    chainGet (buildOuterPayload
      (buildPayload mf sid iso mid gid cm cg actions ai cc) sig sid (fmtStr mf))
      (S "format") = some (.jstr (fmtStr mf)) ∧
    chainGet (buildPayload mf sid iso mid gid cm cg actions ai cc)
      (S "format") = some (.jstr (fmtStr mf)) := by
  obtain ⟨ho1, ho2, ho3, ho4⟩ := chainGet_buildOuterPayload
    (buildPayload mf sid iso mid gid cm cg actions ai cc) sig sid (fmtStr mf)
  refine ⟨ho1, ho3, ?_, ho4, ?_⟩ <;> cases mf
  · exact (chainGet_buildBasicPayload_std sid iso mid gid cm).1
  · exact (chainGet_buildManifestPayload_std sid iso _).1
  · exact (chainGet_buildBasicPayload_std sid iso mid gid cm).2
  · exact (chainGet_buildManifestPayload_std sid iso _).2

theorem normalizeToUTC_error (dt : PyDateTime) (e : TsErr)
    (h : normalizeToUTC dt = .error e) : e = .overflowError := by
  unfold normalizeToUTC at h
  split at h
  · exact absurd h (by simp)
  · dsimp only at h
    split at h
    · exact absurd h (by simp)
    · split at h
      · exact absurd h (by simp)
      · injection h with h
        exact h.symm

theorem normalizeToUTC_utc (dt dtu : PyDateTime)
    (h : normalizeToUTC dt = .ok dtu) : dtu.tzOffset = some 0 := by
  unfold normalizeToUTC at h
  split at h
  · injection h with h
    subst h
    rfl
  · dsimp only at h
    split at h
    · injection h with h
      subst h
      rfl
    · split at h
      · injection h with h
        subst h
        rfl
      · cases h

theorem fmt_dt_cases (dt : PyDateTime) :
    (∃ out, _format_timestamp (some (.dt dt)) = .ok (some out)) ∨
    _format_timestamp (some (.dt dt)) = .error .overflowError := by
  simp only [_format_timestamp, tsToDatetime]
  cases hn : normalizeToUTC dt with
  | error e =>
    have he := normalizeToUTC_error dt e hn
    subst he
    exact Or.inr rfl
  | ok dtu => exact Or.inl ⟨_, rfl⟩

theorem fromtimestampUTC_cases (s : Int) (m : Nat)
    (hs : TIME_T_MIN ≤ s ∧ s ≤ TIME_T_MAX) :
    (∃ d, fromtimestampUTC s m = .ok d ∧ d.tzOffset = some 0) ∨
    fromtimestampUTC s m = .error .valueError := by
  unfold fromtimestampUTC
  rw [if_neg (by omega)]
  dsimp only
  split
  · exact Or.inl ⟨_, rfl, rfl⟩
  · exact Or.inr rfl

theorem fromtimestampUTC_overflow (s : Int) (m : Nat)
    (hs : s < TIME_T_MIN ∨ TIME_T_MAX < s) :
    fromtimestampUTC s m = .error .overflowError := by
  unfold fromtimestampUTC
  rw [if_pos hs]

theorem matchesPattern_length (s : List Nat) (h : matchesPattern s = true) :
    s.length = 20 := by
  unfold matchesPattern at h
  split at h
  · rfl
  · cases h

theorem yearDigits_length_lt (y : Nat) (hy : y < 1000) :
    (yearDigits y).length ≤ 3 := by
  unfold yearDigits
  split
  · simp
  · split
    · simp
    · simp

/-- C8 (amended): every successful result of `_format_timestamp` is the
glibc rendering of a UTC date-time, and it matches `YYYY-MM-DDTHH:MM:SSZ`
exactly when the year has four digits (glibc does not zero-pad `%Y`, so
years below 1000 print shorter); date-time inputs either format or, when
an aware value leaves years 1..9999 on conversion to UTC, raise an
overflow error; naive date-times and bare dates always format; an epoch
within the platform `time_t` range either formats or raises a value
error, while an epoch beyond `time_t` raises an uncaught overflow error;
unparseable strings raise a value error and parseable strings behave
like the date-time they denote. -/
theorem C8_format_timestamp (tsi : TsInput) (d : PyDateTime) (pd : PyDate)
    (n fsec : Int) (fmicro : Nat) (s : List Nat) :
    (∀ out, _format_timestamp (some tsi) = .ok (some out) →
      ∃ dtu, dtu.tzOffset = some 0 ∧ out = strftimeISO dtu ∧
        (1000 ≤ dtu.year → matchesPattern out = true)) ∧
    ((∃ out, _format_timestamp (some (.dt d)) = .ok (some out)) ∨
      _format_timestamp (some (.dt d)) = .error .overflowError) ∧
    (d.tzOffset = none →
      ∃ out, _format_timestamp (some (.dt d)) = .ok (some out) ∧
        out = strftimeISO { d with tzOffset := some 0 } ∧
        (1000 ≤ d.year → matchesPattern out = true)) ∧
    (∃ out, _format_timestamp (some (.dateOnly pd)) = .ok (some out) ∧
      (1000 ≤ pd.year → matchesPattern out = true)) ∧
    (TIME_T_MIN ≤ n → n ≤ TIME_T_MAX →
      (∃ out, _format_timestamp (some (.intEpoch n)) = .ok (some out)) ∨
      _format_timestamp (some (.intEpoch n)) = .error .valueError) ∧
    (n < TIME_T_MIN ∨ TIME_T_MAX < n →
      _format_timestamp (some (.intEpoch n)) = .error .overflowError) ∧
    (TIME_T_MIN ≤ fsec → fsec ≤ TIME_T_MAX →
      (∃ out, _format_timestamp (some (.floatEpoch fsec fmicro)) =
        .ok (some out)) ∨
      _format_timestamp (some (.floatEpoch fsec fmicro)) =
        .error .valueError) ∧
    (fsec < TIME_T_MIN ∨ TIME_T_MAX < fsec →
      _format_timestamp (some (.floatEpoch fsec fmicro)) =
        .error .overflowError) ∧
    (fromisoformat (replaceZ s) = none →
      _format_timestamp (some (.str s)) = .error .valueError) ∧
    (∀ d2, fromisoformat (replaceZ s) = some d2 →
      _format_timestamp (some (.str s)) = _format_timestamp (some (.dt d2))) ∧
    (d.tzOffset = none → d.year < 1000 →
      ∃ out, _format_timestamp (some (.dt d)) = .ok (some out) ∧
        matchesPattern out = false) := by
  refine ⟨?_, fmt_dt_cases d, ?_, ?_, ?_, ?_, ?_, ?_, ?_, ?_, ?_⟩
  · intro out hout
    unfold _format_timestamp at hout
    cases htd : tsToDatetime tsi with
    | error e => simp [htd] at hout
    | ok dt0 =>
      simp only [htd] at hout
      cases hn : normalizeToUTC dt0 with
      | error e => simp [hn] at hout
      | ok dtu =>
        simp only [hn, Except.ok.injEq, Option.some.injEq] at hout
        subst hout
        exact ⟨dtu, normalizeToUTC_utc dt0 dtu hn, rfl,
          fun hy => matchesPattern_strftimeISO dtu hy⟩
  · intro htz
    refine ⟨strftimeISO { d with tzOffset := some 0 }, ?_, rfl, ?_⟩
    · simp only [_format_timestamp, tsToDatetime]
      unfold normalizeToUTC
      rw [htz]
    · intro hy
      exact matchesPattern_strftimeISO _ hy
  · refine ⟨_, rfl, ?_⟩
    intro hy
    exact matchesPattern_strftimeISO _ hy
  · intro h1 h2
    rcases fromtimestampUTC_cases n 0 ⟨h1, h2⟩ with ⟨dd, hd, htz0⟩ | hd
    · refine Or.inl ?_
      simp only [_format_timestamp, tsToDatetime, hd]
      unfold normalizeToUTC
      rw [htz0]
      exact ⟨_, rfl⟩
    · refine Or.inr ?_
      simp only [_format_timestamp, tsToDatetime, hd]
  · intro hb
    simp only [_format_timestamp, tsToDatetime, fromtimestampUTC_overflow n 0 hb]
  · intro h1 h2
    rcases fromtimestampUTC_cases fsec fmicro ⟨h1, h2⟩ with ⟨dd, hd, htz0⟩ | hd
    · refine Or.inl ?_
      simp only [_format_timestamp, tsToDatetime, hd]
      unfold normalizeToUTC
      rw [htz0]
      exact ⟨_, rfl⟩
    · refine Or.inr ?_
      simp only [_format_timestamp, tsToDatetime, hd]
  · intro hb
    simp only [_format_timestamp, tsToDatetime,
      fromtimestampUTC_overflow fsec fmicro hb]
  · intro hp
    simp only [_format_timestamp, tsToDatetime, hp]
  · intro d2 hp
    simp only [_format_timestamp, tsToDatetime, hp]
  · intro htz hy
    refine ⟨strftimeISO { d with tzOffset := some 0 }, ?_, ?_⟩
    · simp only [_format_timestamp, tsToDatetime]
      unfold normalizeToUTC
      rw [htz]
    · cases hmp : matchesPattern (strftimeISO { d with tzOffset := some 0 }) with
      | false => rfl
      | true =>
        have hlen := matchesPattern_length _ hmp
        have hyl : (yearDigits d.year).length ≤ 3 := yearDigits_length_lt d.year hy
        have hyear : ({ d with tzOffset := some 0 } : PyDateTime).year = d.year :=
          rfl
        simp only [strftimeISO, hyear, List.length_append, pad2,
          List.length_cons, List.length_nil] at hlen
        omega

set_option maxRecDepth 20000 in
/-- Witness for C8 at concrete inputs of each kind: a naive date-time
of year 2024 formats with the exact pattern, the epoch `2 ^ 63` lies
beyond `time_t` and raises an overflow error, and an unparseable string
raises a value error. -/
theorem C8_format_timestamp_witness :
    (∃ out, _format_timestamp (some (.dt ⟨2024, 1, 2, 3, 4, 5, 0, none⟩)) =
      .ok (some out) ∧ matchesPattern out = true) ∧
    _format_timestamp (some (.intEpoch (2 ^ 63))) = .error .overflowError ∧
    _format_timestamp (some (.str (S "bogus"))) = .error .valueError := by
  have h := C8_format_timestamp (.str (S "bogus")) ⟨2024, 1, 2, 3, 4, 5, 0, none⟩
    ⟨2024, 1, 2⟩ (2 ^ 63) 0 0 (S "bogus")
  refine ⟨?_, h.2.2.2.2.2.1 (by decide), h.2.2.2.2.2.2.2.2.1 (by rfl)⟩
  obtain ⟨out, h1, h2, h3⟩ := h.2.2.1 rfl
  exact ⟨out, h1, h3 (by decide)⟩

set_option maxRecDepth 20000 in
/-- Counterexample for C8 as stated: the valid aware date-time
9999-12-31T23:59:59 at offset -01:00 is an accepted input, yet its UTC
conversion overflows the supported range, so `_format_timestamp` raises
an overflow error rather than producing a formatted string or raising
the value error the spec promises for invalid inputs. -/
theorem C8_overflow_counterexample :
    (PyDateTime.mk 9999 12 31 23 59 59 0 (some (-3600))).Valid = true ∧
    _format_timestamp (some (.dt ⟨9999, 12, 31, 23, 59, 59, 0,
      some (-3600)⟩)) = .error .overflowError ∧
    TsErr.overflowError ≠ TsErr.valueError :=
  ⟨by decide, by rfl, by decide⟩

/-- Removal of every variation-selector code point from a text. -/
def removeVS (text : List Nat) : List Nat := text.filter (fun c => !isVS c)

theorem isVS_of_to_variation_selector (b c : Nat)
    (h : to_variation_selector b = some c) : isVS c = true := by
  unfold to_variation_selector at h
  split at h
  · injection h with h
    subst h
    unfold isVS VARIATION_SELECTOR_START VARIATION_SELECTOR_END
      VARIATION_SELECTOR_SUPPLEMENT_START VARIATION_SELECTOR_SUPPLEMENT_END
    simp only [decide_eq_true_eq]
    omega
  · split at h
    · injection h with h
      subst h
      unfold isVS VARIATION_SELECTOR_START VARIATION_SELECTOR_END
        VARIATION_SELECTOR_SUPPLEMENT_START VARIATION_SELECTOR_SUPPLEMENT_END
      simp only [decide_eq_true_eq]
      omega
    · cases h

theorem bytes_to_variation_selectors_isVS (data sel : List Nat)
    (h : bytes_to_variation_selectors data = some sel) :
    ∀ c ∈ sel, isVS c = true := by
  intro c hc
  unfold bytes_to_variation_selectors at h
  dsimp only at h
  split at h
  · injection h with h
    subst h
    obtain ⟨ob, hob, hid⟩ := List.mem_filterMap.mp hc
    obtain ⟨b, hb, hba⟩ := List.mem_map.mp hob
    exact isVS_of_to_variation_selector b c (by rw [hba]; exact hid)
  · cases h

/-- The shape of a successful `embed_metadata` result: either the
serialized envelope was empty and the text is returned unchanged, or the
selector characters were spliced after the first target (single mode) or
interleaved across the targets (distributed mode). -/
theorem embed_ok_shape (text : List Nat) (pk : Ed25519PrivateKey)
    (signer_id : List Nat) (mf : MetadataFormat) (sf : SerializationFormat)
    (model_id : Option (List Nat)) (timestamp : Option TsInput)
    (generationID : Option (List Nat)) (target : Option MetadataTarget)
    (custom_metadata : Option JVal) (claim_generator : Option (List Nat))
    (actions ai_info custom_claims : Option JVal) (dist : Bool) (out : List Nat)
    (hembed : embed_metadata text pk signer_id mf sf model_id timestamp
      generationID target custom_metadata claim_generator actions ai_info
      custom_claims dist = .ok out) :
    out = text ∨
    ∃ sel i restIdx, (∀ c ∈ sel, isVS c = true) ∧
      find_targets text (target.getD MetadataTarget.whitespace) = i :: restIdx ∧
      (out = text.take (i + 1) ++ sel ++ text.drop (i + 1) ∨
        out = distributeSplice text (i :: restIdx) 0 sel) := by
  unfold embed_metadata at hembed
  dsimp only at hembed
  split at hembed
  · cases hembed
  · split at hembed
    · cases hembed
    · split at hembed
      · cases hembed
      · cases hembed
      · split at hembed
        · cases hembed
        · rename_i sel hsel
          split at hembed
          · exact Or.inl (Except.ok.inj hembed).symm
          · split at hembed
            · cases hembed
            · rename_i i restIdx htgt
              split at hembed
              · split at hembed
                · cases hembed
                · exact Or.inr ⟨sel, i, restIdx,
                    bytes_to_variation_selectors_isVS _ _ hsel, htgt,
                    Or.inr (Except.ok.inj hembed).symm⟩
              · exact Or.inr ⟨sel, i, restIdx,
                  bytes_to_variation_selectors_isVS _ _ hsel, htgt,
                  Or.inl (Except.ok.inj hembed).symm⟩

theorem filter_not_isVS_of_all (l : List Nat) (h : ∀ c ∈ l, isVS c = false) :
    l.filter (fun c => !isVS c) = l :=
  List.filter_eq_self.mpr (fun c hc => by rw [h c hc]; rfl)

theorem find_targets_sorted (text : List Nat) (target : MetadataTarget) :
    List.Pairwise (fun a b => a < b) (find_targets text target) :=
  List.Pairwise.filter _ (List.pairwise_lt_range text.length)

theorem drop_take_drop (text : List Nat) (last t : Nat) (hlt : last ≤ t)
    (ht : t < text.length) :
    text.drop last =
      (text.drop last).take (t - last) ++ (text.getD t 0 :: text.drop (t + 1)) := by
  have hdd : (text.drop last).drop (t - last) = text.drop t := by
    rw [List.drop_drop]
    congr 1
    omega
  have hdt : text.drop t = text.getD t 0 :: text.drop (t + 1) := by
    rw [List.drop_eq_getElem_cons ht]
    rw [List.getD_eq_getElem text 0 ht]
  rw [← hdt, ← hdd]
  exact (List.take_append_drop _ _).symm

/-- Interleaving the selectors across sorted in-range targets inserts
characters without dropping any: the spliced text filtered back to its
non-selector code points is the original suffix. -/
theorem distributeSplice_filter (text : List Nat)
    (htext : ∀ c ∈ text, isVS c = false) :
    ∀ ts ss last, (∀ t ∈ ts, last ≤ t ∧ t < text.length) →
      List.Pairwise (fun a b => a < b) ts →
      (∀ s ∈ ss, isVS s = true) →
      (distributeSplice text ts last ss).filter (fun c => !isVS c) =
        text.drop last := by
  intro ts
  induction ts with
  | nil =>
    intro ss last _ _ _
    simp only [distributeSplice]
    exact filter_not_isVS_of_all _ (fun c hc => htext c (List.drop_subset _ _ hc))
  | cons t ts ih =>
    intro ss last hbound hpair hss
    cases ss with
    | nil =>
      simp only [distributeSplice]
      exact filter_not_isVS_of_all _ (fun c hc => htext c (List.drop_subset _ _ hc))
    | cons s ss =>
      simp only [distributeSplice]
      have ht := hbound t (by simp)
      have hmem : text.getD t 0 ∈ text := by
        rw [List.getD_eq_getElem text 0 ht.2]
        exact List.getElem_mem ht.2
      have hpair2 := List.pairwise_cons.mp hpair
      rw [List.filter_append]
      rw [filter_not_isVS_of_all ((text.drop last).take (t - last))
        (fun c hc => htext c (List.drop_subset _ _ (List.take_subset _ _ hc)))]
      rw [List.filter_cons_of_pos (by
        show (!isVS (text.getD t 0)) = true
        rw [htext _ hmem]
        rfl)]
      rw [List.filter_cons_of_neg (by simp [hss s (by simp)])]
      rw [ih ss (t + 1)
        (fun t2 ht2 => ⟨hpair2.1 t2 ht2, (hbound t2 (by simp [ht2])).2⟩)
        hpair2.2 (fun x hx => hss x (by simp [hx]))]
      exact (drop_take_drop text last t ht.1 ht.2).symm

/-- Interleaving the selectors across sorted in-range targets keeps the
original suffix as a subsequence. -/
theorem distributeSplice_sublist (text : List Nat) :
    ∀ ts ss last, (∀ t ∈ ts, last ≤ t ∧ t < text.length) →
      List.Pairwise (fun a b => a < b) ts →
      (text.drop last).Sublist (distributeSplice text ts last ss) := by
  intro ts
  induction ts with
  | nil =>
    intro ss last _ _
    simp only [distributeSplice]
    exact List.Sublist.refl _
  | cons t ts ih =>
    intro ss last hbound hpair
    cases ss with
    | nil =>
      simp only [distributeSplice]
      exact List.Sublist.refl _
    | cons s ss =>
      simp only [distributeSplice]
      have ht := hbound t (by simp)
      have hpair2 := List.pairwise_cons.mp hpair
      nth_rewrite 1 [drop_take_drop text last t ht.1 ht.2]
      apply List.Sublist.append_left
      apply List.Sublist.cons₂
      apply List.Sublist.cons
      exact ih ss (t + 1)
        (fun t2 ht2 => ⟨hpair2.1 t2 ht2, (hbound t2 (by simp [ht2])).2⟩)
        hpair2.2

/-- C4 (amended): whenever `embed_metadata` succeeds, in either
single-point or distributed mode, every code point of the original text
appears in the returned text in its original relative order; and when
the host text itself contains no variation selectors, stripping every
variation-selector code point from the result recovers exactly the
original text.  (As stated the claim fails for hosts that already
contain variation selectors, see the counterexample.) -/
theorem C4_text_preservation (text : List Nat) (pk : Ed25519PrivateKey)
    (signer_id : List Nat) (mf : MetadataFormat) (sf : SerializationFormat)
    (model_id : Option (List Nat)) (timestamp : Option TsInput)
    (generationID : Option (List Nat)) (target : Option MetadataTarget)
    (custom_metadata : Option JVal) (claim_generator : Option (List Nat))
    (actions ai_info custom_claims : Option JVal) (dist : Bool) (out : List Nat)
    (hembed : embed_metadata text pk signer_id mf sf model_id timestamp
      generationID target custom_metadata claim_generator actions ai_info
      custom_claims dist = .ok out) :
    text.Sublist out ∧
    ((∀ c ∈ text, isVS c = false) → removeVS out = text) := by
  rcases embed_ok_shape text pk signer_id mf sf model_id timestamp generationID
      target custom_metadata claim_generator actions ai_info custom_claims dist
      out hembed with heq | ⟨sel, i, restIdx, hsel, htgt, hout⟩
  · subst heq
    exact ⟨List.Sublist.refl out, fun htext => filter_not_isVS_of_all out htext⟩
  · have hbound : ∀ t ∈ i :: restIdx, 0 ≤ t ∧ t < text.length :=
      fun t htm => ⟨Nat.zero_le t,
        find_targets_lt text (target.getD MetadataTarget.whitespace) t
          (htgt.symm ▸ htm)⟩
    have hpair : List.Pairwise (fun a b => a < b) (i :: restIdx) :=
      htgt ▸ find_targets_sorted text (target.getD MetadataTarget.whitespace)
    rcases hout with h1 | h2
    · subst h1
      constructor
      · nth_rewrite 1 [(List.take_append_drop (i + 1) text).symm]
        rw [List.append_assoc]
        exact List.Sublist.append_left (List.sublist_append_right _ _) _
      · intro htext
        show List.filter _ _ = text
        rw [List.filter_append, List.filter_append]
        rw [filter_not_isVS_of_all _
          (fun c hc => htext c (List.take_subset _ _ hc))]
        rw [filter_not_isVS_of_all _
          (fun c hc => htext c (List.drop_subset _ _ hc))]
        rw [List.filter_eq_nil_iff.mpr (fun a ha hpa => by
          simp only [hsel a ha] at hpa
          exact absurd hpa (by simp))]
        simp
    · subst h2
      constructor
      · have := distributeSplice_sublist text (i :: restIdx) sel 0 hbound hpair
        simpa using this
      · intro htext
        have := distributeSplice_filter text htext (i :: restIdx) sel 0 hbound
          hpair hsel
        simpa [removeVS] using this

set_option maxRecDepth 200000 in
/-- Witness for C4: a concrete successful embedding into `"a b"` keeps
the host as a subsequence and stripping the selectors recovers it. -/
theorem C4_text_preservation_witness :
    ∃ out, embed_metadata [97, 32, 98] ⟨7⟩ (S "demo") MetadataFormat.basic
        SerializationFormat.json none (some (TsInput.intEpoch 0)) none none
        none none none none none false = .ok out ∧
      [97, 32, 98].Sublist out ∧ removeVS out = [97, 32, 98] := by
  obtain ⟨h1, h2⟩ := C4_text_preservation [97, 32, 98] ⟨7⟩ (S "demo")
    MetadataFormat.basic SerializationFormat.json none
    (some (TsInput.intEpoch 0)) none none none none none none none false _ rfl
  exact ⟨_, rfl, h1, h2 (by decide)⟩

set_option maxRecDepth 200000 in
/-- Counterexample for C4 as stated: embedding succeeds on the host text
`a,U+FE00,space,b` (which already contains the variation selector
U+FE00), but removing every variation-selector code point from the
result also removes the host's own U+FE00, so the original text is not
recovered. -/
theorem C4_vs_host_counterexample :
    ∃ out, embed_metadata [97, 0xFE00, 32, 98] ⟨7⟩ (S "demo")
        MetadataFormat.basic SerializationFormat.json none
        (some (TsInput.intEpoch 0)) none none none none none none none
        false = .ok out ∧
      removeVS out ≠ [97, 0xFE00, 32, 98] :=
  ⟨_, rfl, by decide⟩

/-- C5: with a valid payload (so that the serialized envelope is
non-empty), `embed_metadata` raises a value error and returns no
modified text when the target policy matches no position of the host
text (in particular for empty text, whatever the mode), and, in
distributed mode, when there are strictly fewer target indices than
variation-selector characters to embed; as an `Except.error` result the
failure never carries a partially modified text. -/
theorem C5_no_or_insufficient_targets (text : List Nat) (seed : Nat)
    (signer_id : List Nat) (mf : MetadataFormat) (sf : SerializationFormat)
    (model_id generationID claim_generator : Option (List Nat)) (ts : TsInput)
    (target : Option MetadataTarget)
    (custom_metadata actions ai_info custom_claims : Option JVal)
    (iso : List Nat) (dist : Bool)
    (hsid : SafeStr signer_id = true) (hsidne : signer_id ≠ [])
    (hmid : SafeOptStr model_id = true) (hgid : SafeOptStr generationID = true)
    (hcg : SafeOptStr claim_generator = true)
    (hcm : ValidOptObj custom_metadata = true) (hact : ValidOptJ actions = true)
    (hai : ValidOptObj ai_info = true) (hcc : ValidOptJ custom_claims = true)
    (hts : _format_timestamp (some ts) = .ok (some iso)) :
    (find_targets text (target.getD MetadataTarget.whitespace) = [] →
      embed_metadata text ⟨seed⟩ signer_id mf sf model_id (some ts) generationID
        target custom_metadata claim_generator actions ai_info custom_claims
        dist = .error .valueError) ∧
    (dist = true →
      (find_targets text (target.getD MetadataTarget.whitespace)).length <
        (serialize_payload (buildOuterPayload
          (buildPayload mf signer_id iso model_id generationID custom_metadata
            claim_generator actions ai_info custom_claims)
          (rstripEq (b64Encode (sign_payload ⟨seed⟩
            (serialize_payload (buildPayload mf signer_id iso model_id
              generationID custom_metadata claim_generator actions ai_info
              custom_claims) SerializationFormat.json))))
          signer_id (fmtStr mf)) sf).length →
      embed_metadata text ⟨seed⟩ signer_id mf sf model_id (some ts) generationID
        target custom_metadata claim_generator actions ai_info custom_claims
        dist = .error .valueError) := by
  have hiso : SafeStr iso = true :=
    _format_timestamp_safe ts iso hts
  obtain ⟨hpv, _⟩ := buildPayload_valid mf signer_id iso model_id generationID
    custom_metadata claim_generator actions ai_info custom_claims hsid hiso hmid
    hgid hcm hcg hact hai hcc
  have hval := buildOuterPayload_valid
    (buildPayload mf signer_id iso model_id generationID custom_metadata
      claim_generator actions ai_info custom_claims)
    (rstripEq (b64Encode (sign_payload ⟨seed⟩
      (serialize_payload (buildPayload mf signer_id iso model_id generationID
        custom_metadata claim_generator actions ai_info custom_claims)
        SerializationFormat.json))))
    signer_id (fmtStr mf) hpv (sig_b64_safe _ _) hsid (fmtStr_safe mf)
  have hbytes := serialize_payload_lt_256 _ sf hval
  have hne := serialize_payload_ne_nil _ sf
    (isObjShape_buildOuterPayload (buildPayload mf signer_id iso model_id
      generationID custom_metadata claim_generator actions ai_info custom_claims)
    (rstripEq (b64Encode (sign_payload ⟨seed⟩
      (serialize_payload (buildPayload mf signer_id iso model_id generationID
        custom_metadata claim_generator actions ai_info custom_claims)
        SerializationFormat.json))))
      signer_id (fmtStr mf))
  constructor
  · intro htgt
    unfold embed_metadata
    rw [if_neg hsidne]
    dsimp only
    rw [hts]
    dsimp only
    rw [bytes_to_variation_selectors_of_lt _ hbytes]
    dsimp only
    rw [if_neg (by simpa using hne)]
    rw [htgt]
  · intro hdist hlen
    subst hdist
    unfold embed_metadata
    rw [if_neg hsidne]
    dsimp only
    rw [hts]
    dsimp only
    rw [bytes_to_variation_selectors_of_lt _ hbytes]
    dsimp only
    rw [if_neg (by simpa using hne)]
    cases htgt : find_targets text (target.getD MetadataTarget.whitespace) with
    | nil => rfl
    | cons i rest =>
      dsimp only
      rw [if_pos rfl]
      rw [if_pos (by rw [List.length_map]; exact htgt ▸ hlen)]

set_option maxRecDepth 20000 in
/-- Witness for C5 at a concrete input: embedding into the empty text
(which has no targets) raises a value error. -/
theorem C5_no_or_insufficient_targets_witness :
    embed_metadata [] ⟨7⟩ (S "demo") MetadataFormat.basic
      SerializationFormat.json none (some (TsInput.intEpoch 0)) none none none
      none none none none false = .error .valueError :=
  (C5_no_or_insufficient_targets [] 7 (S "demo") MetadataFormat.basic
    SerializationFormat.json none none none (TsInput.intEpoch 0) none none none
    none none (S "1970-01-01T00:00:00Z") false (by decide) (by decide) rfl rfl
    rfl rfl rfl rfl rfl (by rfl)).1 (by decide)

set_option maxRecDepth 100000 in
/-- Witness for C1 at a concrete input: a full embed/verify round trip
on the text `"a b"` with an epoch-0 timestamp. -/
theorem C1_round_trip_witness :
    ∃ out,
      embed_metadata [97, 32, 98] ⟨7⟩ (S "demo") MetadataFormat.basic
        SerializationFormat.json none (some (TsInput.intEpoch 0)) none none
        none none none none none false = .ok out ∧
      verify_metadata out
        (fun _ => ResolverResult.returns (some (PublicKey.ed25519 7))) false =
        (some (buildPayload MetadataFormat.basic (S "demo")
          (S "1970-01-01T00:00:00Z") none none none none none none none), true,
          some (.jstr (S "demo"))) :=
  C1_round_trip [97, 32, 98] 7 (S "demo") MetadataFormat.basic
    SerializationFormat.json none none none (TsInput.intEpoch 0) none none none
    none none (S "1970-01-01T00:00:00Z") false (by decide) (by decide) rfl rfl
    rfl rfl rfl rfl rfl (by rfl) (by decide) (by decide)

set_option maxRecDepth 400000 in
/-- Counterexample for C1 as stated: with `distribute_across_targets =
true` the embedding succeeds (300 whitespace targets suffice for the
envelope), but verification with the matching key fails, because
`extract_bytes` stops collecting at the first non-selector character
after the first embedded chunk and the truncated envelope does not
deserialize. -/
theorem C1_distributed_counterexample :
    ∃ out,
      embed_metadata (List.replicate 300 32) ⟨7⟩ (S "demo")
        MetadataFormat.basic SerializationFormat.json none
        (some (TsInput.intEpoch 0)) none none none none none none none true =
        .ok out ∧
      verify_metadata out
        (fun _ => ResolverResult.returns (some (PublicKey.ed25519 7))) false =
        (none, false, none) :=
  ⟨_, rfl, by rfl⟩
